import Mathlib

/-!
Verification of the comedy_clipper repository's segment pipeline.

The Python sources are embedded shallowly: floats become rationals (the
operations involved — comparison, `+`, `-`, `min`, `max`, division — are
exact on the inputs considered), lists stay lists, and the stateful
tracking loops become explicit state-passing folds.
-/

namespace ComedyClipper

/-! ## SegmentFilter — python_backend/filters/segment_filter.py

`FilterConfig` mirrors the dataclass; `SegmentFilter.filter` is the
`filter` method: a first pass dropping out-of-range durations and merging
close segments (mutating the last kept segment), then a buffering pass
clamped to `[0, video_duration]`. -/

structure FilterConfig where
  min_duration : ℚ
  max_duration : ℚ
  merge_close_segments : Bool
  merge_threshold : ℚ
  buffer_before_start : ℚ
  buffer_after_end : ℚ
deriving Repr, DecidableEq

/-- Default values of the `FilterConfig` dataclass. -/
def FilterConfig.default : FilterConfig :=
  { min_duration := 180, max_duration := 1800, merge_close_segments := true,
    merge_threshold := 10, buffer_before_start := 10, buffer_after_end := 10 }

/-- The duration/merge loop of `SegmentFilter.filter`.  `acc` is the
`filtered` list in reverse (its head is Python's `filtered[-1]`, the only
element the loop ever mutates). -/
def filterPass (cfg : FilterConfig) : List (ℚ × ℚ) → List (ℚ × ℚ) → List (ℚ × ℚ)
  | acc, [] => acc.reverse
  | acc, (s, e) :: rest =>
    let duration := e - s
    if duration < cfg.min_duration then filterPass cfg acc rest
    else if duration > cfg.max_duration then filterPass cfg acc rest
    else
      match acc with
      | (ps, pe) :: accTail =>
        if cfg.merge_close_segments ∧ s - pe < cfg.merge_threshold then
          filterPass cfg ((ps, e) :: accTail) rest
        else
          filterPass cfg ((s, e) :: (ps, pe) :: accTail) rest
      | [] => filterPass cfg [(s, e)] rest

/-- The buffering step applied to each surviving segment: expand by the
configured buffers, clamp the start at `0` and (when known) the end at
`video_duration`. -/
def applyBuffer (cfg : FilterConfig) (video_duration : Option ℚ) (seg : ℚ × ℚ) : ℚ × ℚ :=
  let buffered_start := max 0 (seg.1 - cfg.buffer_before_start)
  let buffered_end := seg.2 + cfg.buffer_after_end
  match video_duration with
  | some d => (buffered_start, min d buffered_end)
  | none => (buffered_start, buffered_end)

/-- `SegmentFilter.filter(segments, video_duration)`. -/
def SegmentFilter.filter (cfg : FilterConfig) (segments : List (ℚ × ℚ))
    (video_duration : Option ℚ) : List (ℚ × ℚ) :=
  (filterPass cfg [] segments).map (applyBuffer cfg video_duration)

/-- Two consecutive kept segments are separated by at least the merge
threshold (this is what the merge branch of the loop enforces). -/
def gapOK (cfg : FilterConfig) (p q : ℚ × ℚ) : Prop :=
  cfg.merge_threshold ≤ q.1 - p.2

/-! ## FlexibleZoneConfig — zone_config.py

A zone is a rectangle, polygon or ellipse over normalized coordinates;
`unset` models `stage_bounds is None`.  `set_rectangle_zone`,
`set_polygon_zone` and `set_elliptical_zone` derive the `safe` and
`danger` layers from the stage layer. -/

inductive ZoneShape where
  | rectangle (left right top bottom : ℚ)
  | polygon (points : List (ℚ × ℚ))
  | ellipse (cx cy width height : ℚ)
  | unset
deriving Repr, DecidableEq

structure FlexibleZoneConfig where
  stage_bounds : ZoneShape
  safe_zone : ZoneShape
  danger_zone : ZoneShape
deriving Repr, DecidableEq

/-- `np.mean(points, axis=0)`: the componentwise mean of the vertices. -/
def polygonCenter (pts : List (ℚ × ℚ)) : ℚ × ℚ :=
  ((pts.map Prod.fst).sum / pts.length, (pts.map Prod.snd).sum / pts.length)

/-- `center + k * (p - center)`, the broadcast arithmetic used on the
polygon vertex array. -/
def scaleAbout (center : ℚ × ℚ) (k : ℚ) (p : ℚ × ℚ) : ℚ × ℚ :=
  (center.1 + k * (p.1 - center.1), center.2 + k * (p.2 - center.2))

/-- `set_rectangle_zone(left, right, top, bottom)`: safe/danger layers use
a fixed `margin = 0.05` on every side. -/
def set_rectangle_zone (left right top bottom : ℚ) : FlexibleZoneConfig :=
  let margin : ℚ := 5 / 100
  { stage_bounds := .rectangle left right top bottom,
    safe_zone := .rectangle (left + margin) (right - margin) (top + margin) (bottom - margin),
    danger_zone := .rectangle (left - margin) (right + margin) (top - margin) (bottom + margin) }

/-- `set_polygon_zone(points)`: safe/danger layers scale the vertices by
`0.9` / `1.1` about the centroid. -/
def set_polygon_zone (points : List (ℚ × ℚ)) : FlexibleZoneConfig :=
  let center := polygonCenter points
  { stage_bounds := .polygon points,
    safe_zone := .polygon (points.map (scaleAbout center (9 / 10))),
    danger_zone := .polygon (points.map (scaleAbout center (11 / 10))) }

/-- `set_elliptical_zone(center_x, center_y, width, height)`: safe/danger
layers scale width and height by `0.9` / `1.1`. -/
def set_elliptical_zone (center_x center_y width height : ℚ) : FlexibleZoneConfig :=
  { stage_bounds := .ellipse center_x center_y width height,
    safe_zone := .ellipse center_x center_y (width * (9 / 10)) (height * (9 / 10)),
    danger_zone := .ellipse center_x center_y (width * (11 / 10)) (height * (11 / 10)) }

/-- The edges of a closed polygon, each vertex paired with its successor
(the last vertex wraps around to the first). -/
def polygonEdges (pts : List (ℚ × ℚ)) : List ((ℚ × ℚ) × (ℚ × ℚ)) :=
  pts.zip (pts.rotate 1)

/-- Squared distance from point `p` to the closed segment `[a, b]`
(the clamped-projection case split used by OpenCV's measuring mode). -/
def segSqDist (a b p : ℚ × ℚ) : ℚ :=
  let dx := b.1 - a.1
  let dy := b.2 - a.2
  let dx1 := p.1 - a.1
  let dy1 := p.2 - a.2
  let dx2 := p.1 - b.1
  let dy2 := p.2 - b.2
  if dx1 * dx + dy1 * dy ≤ 0 then dx1 ^ 2 + dy1 ^ 2
  else if dx2 * dx + dy2 * dy ≥ 0 then dx2 ^ 2 + dy2 ^ 2
  else (dy1 * dx - dx1 * dy) ^ 2 / (dx ^ 2 + dy ^ 2)

/-- One edge's contribution to OpenCV's crossing counter (the non-skipped
edges whose oriented cross product is positive). -/
def edgeCrosses (p : ℚ × ℚ) (e : (ℚ × ℚ) × (ℚ × ℚ)) : Bool :=
  let v0 := e.1
  let v := e.2
  if (v0.2 ≤ p.2 ∧ v.2 ≤ p.2) ∨ (v0.2 > p.2 ∧ v.2 > p.2) ∨ (v0.1 < p.1 ∧ v.1 < p.1) then
    false
  else
    let t := (p.2 - v0.2) * (v.1 - v0.1) - (p.1 - v0.1) * (v.2 - v0.2)
    let t := if v.2 < v0.2 then -t else t
    decide (t > 0)

/-- Even-odd inside test by crossing parity. -/
def insideEO (pts : List (ℚ × ℚ)) (p : ℚ × ℚ) : Bool :=
  ((polygonEdges pts).countP (edgeCrosses p)) % 2 == 1

/-- Minimum of a list of rationals (`0` for the empty list, which only
arises for an empty polygon). -/
def listMin : List ℚ → ℚ
  | [] => 0
  | x :: xs => xs.foldl min x

/-- Signed distance of `p` to the polygon: positive inside, zero on an
edge, negative outside.  The magnitude is the squared euclidean distance
to the nearest edge (sign-equivalent to OpenCV's euclidean value; only
the sign is consumed by `zone_config.py`). -/
def polySignedDist (pts : List (ℚ × ℚ)) (p : ℚ × ℚ) : ℚ :=
  let minSq := listMin ((polygonEdges pts).map (fun e => segSqDist e.1 e.2 p))
  (if insideEO pts p then 1 else -1) * minSq

/-- Model of `cv2.pointPolygonTest` per its documented contract: the
result is positive when the point is inside, negative outside and zero on
an edge; `measureDist` only switches between the signed distance itself
and its sign (`+1`/`-1`/`0`). -/
def pointPolygonTest (pts : List (ℚ × ℚ)) (p : ℚ × ℚ) (measureDist : Bool) : ℚ :=
  let d := polySignedDist pts p
  if measureDist then d
  else if d > 0 then 1 else if d < 0 then -1 else 0

/-- The shape dispatch of `is_in_zone` on the selected bounds. -/
def shapeContains (bounds : ZoneShape) (x y : ℚ) : Bool :=
  match bounds with
  | .unset => true
  | .rectangle left right top bottom =>
    decide (left ≤ x ∧ x ≤ right ∧ top ≤ y ∧ y ≤ bottom)
  | .polygon pts => decide (pointPolygonTest pts (x, y) false ≥ 0)
  | .ellipse cx cy width height =>
    let wx := width / 2
    let wy := height / 2
    decide (((x - cx) / wx) ^ 2 + ((y - cy) / wy) ^ 2 ≤ 1)

/-- `is_in_zone(x, y, zone_name)`. -/
def is_in_zone (cfg : FlexibleZoneConfig) (x y : ℚ) (zone_name : String) : Bool :=
  shapeContains
    (if zone_name = "safe" then cfg.safe_zone
     else if zone_name = "danger" then cfg.danger_zone
     else cfg.stage_bounds) x y

/-- `get_distance_to_edge(x, y)`: distance from the point to the stage
zone's nearest edge, negative outside the zone. -/
def get_distance_to_edge (cfg : FlexibleZoneConfig) (x y : ℚ) : ℚ :=
  match cfg.stage_bounds with
  | .unset => 1 / 2
  | .rectangle left right top bottom =>
    min (min (min (x - left) (right - x)) (y - top)) (bottom - y)
  | .polygon pts => pointPolygonTest pts (x, y) true
  | .ellipse cx cy width height =>
    let wx := width / 2
    let wy := height / 2
    let ellipse_value := ((x - cx) / wx) ^ 2 + ((y - cy) / wy) ^ 2
    if ellipse_value ≤ 1 then (1 - ellipse_value) * min wx wy
    else -(ellipse_value - 1) * min wx wy

/-- An ellipse zone needs positive axes for the membership test and the
distance to speak about the same region (the Python code divides by
`width/2` and `height/2`). -/
def ZoneShape.wellFormed : ZoneShape → Prop
  | .ellipse _ _ width height => 0 < width ∧ 0 < height
  | _ => True

/-- Spec reading of C8 for rectangles: the safe region is the stage
rectangle shrunk by 10% about its center, the danger region the stage
rectangle expanded by 10% about its center. -/
def shrinkRect10 (left right top bottom : ℚ) : ZoneShape :=
  let cx := (left + right) / 2
  let cy := (top + bottom) / 2
  .rectangle (cx + (9 / 10) * (left - cx)) (cx + (9 / 10) * (right - cx))
    (cy + (9 / 10) * (top - cy)) (cy + (9 / 10) * (bottom - cy))

def expandRect10 (left right top bottom : ℚ) : ZoneShape :=
  let cx := (left + right) / 2
  let cy := (top + bottom) / 2
  .rectangle (cx + (11 / 10) * (left - cx)) (cx + (11 / 10) * (right - cx))
    (cy + (11 / 10) * (top - cy)) (cy + (11 / 10) * (bottom - cy))

/-- Spec reading of C8 for polygons and ellipses: scale by `0.9`/`1.1`
(shrink/expand by 10%). -/
def scalePolygon (k : ℚ) (pts : List (ℚ × ℚ)) : ZoneShape :=
  .polygon (pts.map (scaleAbout (polygonCenter pts) k))

def scaleEllipse (k : ℚ) (cx cy width height : ℚ) : ZoneShape :=
  .ellipse cx cy (width * k) (height * k)

/-! ## ConfidenceBasedDetector — confidence_detector.py

`calculate_exit_confidence` is embedded as a pure function of the
person's signal history (the `signals` deque, oldest first) and the
previously stored exit confidence; the method both returns and stores the
smoothed value. -/

structure DetectionSignal where
  signal_type : String
  value : ℚ
  confidence : ℚ
  timestamp : ℚ
deriving Repr, DecidableEq

/-- The fixed `signal_weights` dict, in insertion order. -/
def signal_weights : List (String × ℚ) :=
  [("position", 15/100), ("velocity", 25/100), ("zone", 20/100),
   ("appearance", 20/100), ("context", 20/100)]

/-- `np.mean` of a list of rationals. -/
def mean (xs : List ℚ) : ℚ := xs.sum / xs.length

/-- Python's `l[-5:]`: the most recent `n` entries. -/
def takeLast (n : ℕ) (l : List α) : List α := l.drop (l.length - n)

/-- The signals of one type, in arrival order (`signal_groups[t]`). -/
def signalGroup (signals : List DetectionSignal) (t : String) : List DetectionSignal :=
  signals.filter (fun s => decide (s.signal_type = t))

/-- One iteration of the `for signal_type, weight in self.signal_weights.items()`
loop, accumulating `(sum(weighted_scores.values()), total_weight)`. -/
def weightStep (signals : List DetectionSignal) (acc : ℚ × ℚ) (tw : String × ℚ) : ℚ × ℚ :=
  let group := signalGroup signals tw.1
  if group = [] then acc
  else
    let recent := takeLast 5 group
    let avg_value := mean (recent.map (fun s => s.value * s.confidence))
    let avg_confidence := mean (recent.map (fun s => s.confidence))
    (acc.1 + avg_value * avg_confidence * tw.2, acc.2 + tw.2)

/-- `calculate_exit_confidence` for a tracked person with signal history
`signals` and stored exit confidence `old_confidence`. -/
def calculate_exit_confidence (signals : List DetectionSignal) (old_confidence : ℚ) : ℚ :=
  if signals = [] then 0
  else
    let acc := signal_weights.foldl (weightStep signals) (0, 0)
    let exit_confidence := if acc.2 > 0 then acc.1 / acc.2 else 0
    7/10 * exit_confidence + 3/10 * old_confidence

/-- The weight entries whose signal type occurs in the history. -/
def presentWeights (signals : List DetectionSignal) : List (String × ℚ) :=
  signal_weights.filter (fun tw => !(signalGroup signals tw.1).isEmpty)

/-- The raw fused score as the code computes it, written spec-style: per
present type, the mean of the recent `value*confidence` samples times the
mean of their confidences times the type's weight, summed and divided by
the total present weight. -/
def rawFused (signals : List DetectionSignal) : ℚ :=
  let present := presentWeights signals
  if present = [] then 0
  else
    (present.map (fun tw =>
      mean ((takeLast 5 (signalGroup signals tw.1)).map (fun s => s.value * s.confidence)) *
        mean ((takeLast 5 (signalGroup signals tw.1)).map (fun s => s.confidence)) *
        tw.2)).sum /
      (present.map Prod.snd).sum

/-- The raw fused score exactly as the spec sentence of C3 words it: the
per-type average of `value*confidence` times the weight, with no
average-confidence factor. -/
def rawClaimed (signals : List DetectionSignal) : ℚ :=
  let present := presentWeights signals
  if present = [] then 0
  else
    (present.map (fun tw =>
      mean ((takeLast 5 (signalGroup signals tw.1)).map (fun s => s.value * s.confidence)) *
        tw.2)).sum /
      (present.map Prod.snd).sum

/-! ## CacheManager — python_backend/core/cache_manager.py

The on-disk cache directory is modelled as an association list from cache
keys (strings `"<video_hash>_<config_hash>"`) to stored `DetectionCache`
records; `save_cache` writes the pickle under the key, `load_cache`
recomputes the key from the video and the config and looks it up.  The
filesystem hash of the video file (`_compute_video_hash`, which reads
size/mtime/head/tail bytes) is I/O and is represented by the hash string
it produces. -/

/-- The detection-relevant subset of the configuration dictionary read by
`_compute_config_hash` (other config fields are never hashed). -/
structure DetectionParams where
  detection_mode : Option String
  yolo_model : Option String
  yolo_confidence : Option ℚ
  face_confidence : Option ℚ
  pose_model_complexity : Option ℕ
  sample_rate : Option ℕ
  zone_boundaries : Option (List ℚ)
deriving Repr, DecidableEq

structure DetectionCacheData where
  video_path : String
  video_hash : String
  config_hash : DetectionParams
  frame_count : ℕ
  frames : List (ℕ × ℚ)
deriving Repr, DecidableEq

/-- A configuration: the hashed detection parameters plus arbitrary other
entries that `_compute_config_hash` ignores. -/
structure CacheConfig where
  params : DetectionParams
  other : List (String × String)
deriving Repr, DecidableEq

/-- `_compute_config_hash`: a deterministic digest of the sorted
detection-relevant parameters.  Hashing is modelled injectively by the
parameter record itself (two configs "hash identically" exactly when
their detection-relevant fields coincide). -/
def compute_config_hash (config : CacheConfig) : DetectionParams :=
  config.params

/-- `get_cache_key(video_path, config)`: `f"{video_hash}_{config_hash}"`.
The video hash argument stands for `_compute_video_hash(video_path)`. -/
def get_cache_key (video_hash : String) (config_hash : DetectionParams) :
    String × DetectionParams :=
  (video_hash, config_hash)

/-- The cache directory: stored blobs keyed by cache key. -/
abbrev CacheStore := List ((String × DetectionParams) × DetectionCacheData)

/-- `save_cache(detection_data)`: write the blob under the key derived
from the hashes stored in the record (`f"{video_hash}_{config_hash}"`;
newer writes shadow older ones, like overwriting the file). -/
def save_cache (store : CacheStore) (data : DetectionCacheData) : CacheStore :=
  ((data.video_hash, data.config_hash), data) :: store

/-- `load_cache(video_path, config)`: recompute the key and return the
blob if the file exists, else `None`. -/
def load_cache (store : CacheStore) (video_hash : String) (config : CacheConfig) :
    Option DetectionCacheData :=
  (store.find? (fun e => decide (e.1 = get_cache_key video_hash (compute_config_hash config)))).map
    Prod.snd

/-! ## ContextualTransitionRules — context_rules.py -/

inductive PerformanceState where
  | empty_stage | host_intro | comedian_entering | comedian_performing
  | host_outro | transition | applause
deriving Repr, DecidableEq

/-- An open candidate segment (`self.current_segment`). -/
structure CandidateSegment where
  start_time : ℚ
  start_state : PerformanceState
deriving Repr, DecidableEq

/-- A finalized segment appended to `self.performance_segments`. -/
structure PerformanceSegment where
  start_time : ℚ
  start_state : PerformanceState
  end_time : ℚ
  end_state : PerformanceState
  duration : ℚ
deriving Repr, DecidableEq

/-- The `start_conditions` list of `_check_segment_boundary`. -/
def startCondition (old_state new_state : PerformanceState) : Bool :=
  (old_state == .comedian_entering && new_state == .comedian_performing) ||
    (old_state == .empty_stage && new_state == .comedian_performing) ||
    (old_state == .transition && new_state == .comedian_performing)

/-- The `end_conditions` list of `_check_segment_boundary`. -/
def endCondition (old_state new_state : PerformanceState) : Bool :=
  (old_state == .comedian_performing && new_state == .host_outro) ||
    (old_state == .comedian_performing && new_state == .empty_stage) ||
    (old_state == .comedian_performing && new_state == .applause)

/-- `_check_segment_boundary(old_state, new_state, timestamp)` acting on
`(performance_segments, current_segment)`. -/
def check_segment_boundary (min_performance_duration : ℚ)
    (segments : List PerformanceSegment) (current : Option CandidateSegment)
    (old_state new_state : PerformanceState) (timestamp : ℚ) :
    List PerformanceSegment × Option CandidateSegment :=
  if startCondition old_state new_state then
    match current with
    | none => (segments, some { start_time := timestamp, start_state := new_state })
    | some c => (segments, some c)
  else if endCondition old_state new_state then
    match current with
    | none => (segments, none)
    | some c =>
      let duration := timestamp - c.start_time
      if duration ≥ min_performance_duration then
        let seg : PerformanceSegment :=
          { start_time := c.start_time, start_state := c.start_state,
            end_time := timestamp, end_state := old_state, duration := duration }
        (segments ++ [seg], none)
      else
        (segments, none)
  else
    (segments, current)

/-! ## YOLOPoseProcessor — yolo_pose_processor.py

`_process_chunk` is embedded from the point where each sampled frame's
quality-filtered `detected_persons` list is known (the YOLO model and the
per-detection quality filter produce that list; the tracking loop below
is what the claims are about).  A chunk is therefore a list of
`(global_timestamp, detected_persons)` pairs in frame order, and the
mutable `tracked_persons`/`next_person_id`/`events` state is threaded
explicitly.  `pose_metadata`, a side output never read back, is not
modelled. -/

inductive FrameEdge where
  | left | right | top | bottom
deriving Repr, DecidableEq

inductive PersonState where
  | pending | active | dormant | exited
deriving Repr, DecidableEq

inductive PoseEventType where
  | enter | exit
deriving Repr, DecidableEq

structure BBox where
  x1 : ℚ
  y1 : ℚ
  x2 : ℚ
  y2 : ℚ
deriving Repr, DecidableEq

/-- One entry of `detected_persons` (already past the quality filter). -/
structure PoseDetection where
  bbox : BBox
  keypoints : List (ℚ × ℚ × ℚ)
  confidence : ℚ
  bbox_area : ℚ
deriving Repr, DecidableEq

structure TrackedPerson where
  person_id : ℕ
  last_bbox : BBox
  last_keypoints : List (ℚ × ℚ × ℚ)
  frames_missing : ℕ
  state : PersonState
  last_seen_timestamp : ℚ
  first_seen_timestamp : ℚ
  consecutive_detections : ℕ
  entry_edge : Option FrameEdge
  enter_event_emitted : Bool
  last_confidence : ℚ
deriving Repr, DecidableEq

/-- `TrackedPerson.__init__`. -/
def TrackedPerson.init (person_id : ℕ) (bbox : BBox) (keypoints : List (ℚ × ℚ × ℚ))
    (timestamp : ℚ) (entry_edge : Option FrameEdge) : TrackedPerson :=
  { person_id := person_id, last_bbox := bbox, last_keypoints := keypoints,
    frames_missing := 0, state := .pending, last_seen_timestamp := timestamp,
    first_seen_timestamp := timestamp, consecutive_detections := 1,
    entry_edge := entry_edge, enter_event_emitted := false, last_confidence := 0 }

/-- `TrackedPerson.update`. -/
def TrackedPerson.updateDet (p : TrackedPerson) (bbox : BBox)
    (keypoints : List (ℚ × ℚ × ℚ)) (timestamp : ℚ) (confidence : ℚ) : TrackedPerson :=
  { p with
    last_bbox := bbox, last_keypoints := keypoints, frames_missing := 0,
    consecutive_detections := p.consecutive_detections + 1,
    last_seen_timestamp := timestamp, last_confidence := confidence }

/-- `TrackedPerson.mark_missing`. -/
def TrackedPerson.markMissing (p : TrackedPerson) : TrackedPerson :=
  { p with frames_missing := p.frames_missing + 1, consecutive_detections := 0 }

structure PoseEvent where
  timestamp : ℚ
  event_type : PoseEventType
  person_id : ℕ
  confidence : ℚ
  bbox : BBox
  keypoints : List (ℚ × ℚ × ℚ)
deriving Repr, DecidableEq

/-- The tracking constants of `YOLOPoseProcessor` that the chunk loop
reads (class constants, overridable in `__init__`). -/
structure TrackerConfig where
  enter_stability_seconds : ℚ
  exit_stability_seconds : ℚ
  dormant_timeout_seconds : ℚ
  exit_edge_threshold : ℚ
  audience_zone_threshold : ℚ
  primary_performer_only : Bool
deriving Repr, DecidableEq

/-- The class-level default values. -/
def TrackerConfig.default : TrackerConfig :=
  { enter_stability_seconds := 3/2, exit_stability_seconds := 2,
    dormant_timeout_seconds := 10, exit_edge_threshold := 1/5,
    audience_zone_threshold := 1/4, primary_performer_only := true }

/-- `VALID_ENTRY_EDGES = ['left', 'right']`. -/
def valid_entry_edges : List FrameEdge := [.left, .right]

/-- `_calculate_iou`. -/
def calculate_iou (bbox1 bbox2 : BBox) : ℚ :=
  let x1_i := max bbox1.x1 bbox2.x1
  let y1_i := max bbox1.y1 bbox2.y1
  let x2_i := min bbox1.x2 bbox2.x2
  let y2_i := min bbox1.y2 bbox2.y2
  if x2_i < x1_i ∨ y2_i < y1_i then 0
  else
    let intersection := (x2_i - x1_i) * (y2_i - y1_i)
    let area1 := (bbox1.x2 - bbox1.x1) * (bbox1.y2 - bbox1.y1)
    let area2 := (bbox2.x2 - bbox2.x1) * (bbox2.y2 - bbox2.y1)
    let union := area1 + area2 - intersection
    if union > 0 then intersection / union else 0

def BBox.center (b : BBox) : ℚ × ℚ := ((b.x1 + b.x2) / 2, (b.y1 + b.y2) / 2)

/-- `_calculate_center_distance(bbox1, bbox2) < t`, phrased on squares:
the code compares `sqrt(dx² + dy²) < t`, which over the reals is
`0 < t ∧ dx² + dy² < t²`. -/
def center_distance_lt (bbox1 bbox2 : BBox) (t : ℚ) : Bool :=
  let c1 := bbox1.center
  let c2 := bbox2.center
  decide (0 < t ∧ (c1.1 - c2.1) ^ 2 + (c1.2 - c2.2) ^ 2 < t ^ 2)

/-- `_get_entry_edge`. -/
def get_entry_edge (cfg : TrackerConfig) (bbox : BBox) (frame_width frame_height : ℚ) :
    Option FrameEdge :=
  let c := bbox.center
  let threshold := cfg.exit_edge_threshold
  if c.1 < frame_width * threshold then some .left
  else if c.1 > frame_width * (1 - threshold) then some .right
  else if c.2 < frame_height * threshold then some .top
  else if c.2 > frame_height * (1 - threshold) then some .bottom
  else none

/-- `_is_in_audience_zone`. -/
def is_in_audience_zone (cfg : TrackerConfig) (bbox : BBox) (frame_height : ℚ) : Bool :=
  decide (bbox.center.2 > frame_height * (1 - cfg.audience_zone_threshold))

/-- `_is_valid_exit`. -/
def is_valid_exit (cfg : TrackerConfig) (last_bbox : BBox) (frame_width : ℚ)
    (frame_height : Option ℚ) : Bool :=
  let c := last_bbox.center
  let fh := match frame_height with
    | some h => h
    | none => frame_width * 9 / 16
  decide (c.1 < frame_width * cfg.exit_edge_threshold ∨
    c.1 > frame_width * (1 - cfg.exit_edge_threshold) ∨
    c.2 < fh * cfg.exit_edge_threshold ∨
    c.2 > fh * (1 - cfg.exit_edge_threshold))

/-- One iteration of `_match_detection_to_person`'s loop: score a tracked
person against the detection and keep it when it beats the best so far
and the 0.15 floor (exited persons are skipped). -/
def matchStep (detection_bbox : BBox) (frame_width : ℚ) (best : Option ℕ × ℚ)
    (e : ℕ × TrackedPerson) : Option ℕ × ℚ :=
  if e.2.state = .exited then best
  else
    let iou := calculate_iou detection_bbox e.2.last_bbox
    let score :=
      if e.2.state = .dormant then
        if center_distance_lt detection_bbox e.2.last_bbox (frame_width * (3/10)) then
          max iou (2/10)
        else iou * (5/10)
      else if e.2.state = .pending then iou * (11/10)
      else iou
    if score > best.2 ∧ score > 15/100 then (some e.1, score) else best

/-- `_match_detection_to_person`: greedy best-score match over the
tracked persons in insertion order, skipping exited persons. -/
def match_detection_to_person (detection_bbox : BBox)
    (tracked_persons : List (ℕ × TrackedPerson)) (frame_width : ℚ) : Option ℕ :=
  (tracked_persons.foldl (matchStep detection_bbox frame_width) (none, 0)).1

structure ChunkState where
  tracked_persons : List (ℕ × TrackedPerson)
  next_person_id : ℕ
  events : List PoseEvent
deriving Repr, DecidableEq

def ChunkState.init : ChunkState := ⟨[], 0, []⟩

def lookupPerson (persons : List (ℕ × TrackedPerson)) (pid : ℕ) : Option TrackedPerson :=
  (persons.find? (fun e => decide (e.1 = pid))).map Prod.snd

def updatePerson (persons : List (ℕ × TrackedPerson)) (pid : ℕ) (p : TrackedPerson) :
    List (ℕ × TrackedPerson) :=
  persons.map (fun e => if e.1 = pid then (e.1, p) else e)

/-- The body of the `for detection in detected_persons` loop: match or
create, with the pending→active promotion and enter-event emission. -/
def processDetection (cfg : TrackerConfig) (fw fh ts : ℚ)
    (acc : ChunkState × List ℕ) (d : PoseDetection) : ChunkState × List ℕ :=
  let st := acc.1
  let cur := acc.2
  match match_detection_to_person d.bbox st.tracked_persons fw with
  | some matched_id =>
    match lookupPerson st.tracked_persons matched_id with
    | none => (st, cur)
    | some person =>
      let was_dormant := person.state = .dormant
      let p1 := person.updateDet d.bbox d.keypoints ts d.confidence
      let p2 := if was_dormant then
          { p1 with state := .pending, first_seen_timestamp := ts }
        else p1
      if p2.state = .pending ∧ p2.enter_event_emitted = false ∧
          ts - p2.first_seen_timestamp ≥ cfg.enter_stability_seconds then
        let p3 := { p2 with state := .active, enter_event_emitted := true }
        ({ st with
            tracked_persons := updatePerson st.tracked_persons matched_id p3,
            events := st.events ++ [⟨p3.first_seen_timestamp, .enter, matched_id,
              p3.last_confidence, p3.last_bbox, p3.last_keypoints⟩] },
          cur ++ [matched_id])
      else
        ({ st with tracked_persons := updatePerson st.tracked_persons matched_id p2 },
          cur ++ [matched_id])
  | none =>
    let entry_edge := get_entry_edge cfg d.bbox fw fh
    let create := fun (_ : Unit) =>
      let pid := st.next_person_id
      let p := { TrackedPerson.init pid d.bbox d.keypoints ts entry_edge with
        last_confidence := d.confidence }
      ({ st with
          tracked_persons := st.tracked_persons ++ [(pid, p)],
          next_person_id := pid + 1 }, cur ++ [pid])
    match entry_edge with
    | some e => if e ∈ valid_entry_edges then create () else (st, cur)
    | none => create ()

/-- The body of the unmatched-person loop for one person that is neither
in `current_frame_persons` nor exited: increment the missing counter,
drop never-stabilized pending persons, and apply the exit hysteresis
(exit near an edge, dormant otherwise). -/
def handleMissing (cfg : TrackerConfig) (fw fh ts : ℚ) (pid : ℕ)
    (person : TrackedPerson) : TrackedPerson × Option PoseEvent :=
  let p := person.markMissing
  let missing_duration := ts - p.last_seen_timestamp
  if p.state = .pending ∧ p.enter_event_emitted = false then
    if missing_duration > cfg.enter_stability_seconds then
      ({ p with state := .exited }, none)
    else (p, none)
  else if missing_duration ≥ cfg.exit_stability_seconds then
    if is_valid_exit cfg p.last_bbox fw (some fh) then
      ({ p with state := .exited },
        some ⟨p.last_seen_timestamp, .exit, pid, 1, p.last_bbox, []⟩)
    else ({ p with state := .dormant }, none)
  else (p, none)

/-- One entry of the unmatched-person loop (persons detected this frame
or already exited are untouched). -/
def missEntry (cfg : TrackerConfig) (fw fh ts : ℚ) (cur : List ℕ)
    (e : ℕ × TrackedPerson) : TrackedPerson × Option PoseEvent :=
  if e.1 ∈ cur ∨ e.2.state = .exited then (e.2, none)
  else handleMissing cfg fw fh ts e.1 e.2

/-- One entry of the dormant-cleanup loop: a dormant person past the
timeout becomes exited, with an exit event only if its enter was
emitted. -/
def dormantEntry (cfg : TrackerConfig) (ts : ℚ) (e : ℕ × TrackedPerson) :
    TrackedPerson × Option PoseEvent :=
  if e.2.state = .dormant ∧ ts - e.2.last_seen_timestamp > cfg.dormant_timeout_seconds then
    ({ e.2 with state := .exited },
      if e.2.enter_event_emitted then
        some ⟨e.2.last_seen_timestamp, .exit, e.1, 7/10, e.2.last_bbox, []⟩
      else none)
  else (e.2, none)

/-- Running a per-entry pass over the person table: every person is
rewritten in place and the passes' events are appended in table order. -/
def entryPass (t : ℕ × TrackedPerson → TrackedPerson × Option PoseEvent) :
    List (ℕ × TrackedPerson) → List (ℕ × TrackedPerson) × List PoseEvent
  | [] => ([], [])
  | e :: rest =>
    let r := t e
    let tail := entryPass t rest
    ((e.1, r.1) :: tail.1, r.2.toList ++ tail.2)

/-- `PRIMARY_PERFORMER_ONLY`: stable-sort by area descending and keep the
first, i.e. the earliest detection of maximal area. -/
def largestDetection (l : List PoseDetection) : List PoseDetection :=
  match l with
  | [] => []
  | d :: ds => [ds.foldl (fun best p => if p.bbox_area > best.bbox_area then p else best) d]

/-- One sampled frame of the chunk loop: smart filtering, matching,
missing handling, dormant cleanup. -/
def frameStep (cfg : TrackerConfig) (fw fh : ℚ) (st : ChunkState)
    (frame : ℚ × List PoseDetection) : ChunkState :=
  let ts := frame.1
  let dets1 := frame.2.filter (fun d => !is_in_audience_zone cfg d.bbox fh)
  let dets := if cfg.primary_performer_only ∧ dets1.length > 1 then
      largestDetection dets1
    else dets1
  let stcur := dets.foldl (processDetection cfg fw fh ts) (st, [])
  let miss := entryPass (missEntry cfg fw fh ts stcur.2) stcur.1.tracked_persons
  let dorm := entryPass (dormantEntry cfg ts) miss.1
  { tracked_persons := dorm.1, next_person_id := stcur.1.next_person_id,
    events := stcur.1.events ++ miss.2 ++ dorm.2 }

/-- One entry of the end-of-chunk pass: exit events for confirmed persons
still dormant, or active but missing. -/
def endEntry (cfg : TrackerConfig) (fw fh : ℚ) (e : ℕ × TrackedPerson) :
    Option PoseEvent :=
  if e.2.enter_event_emitted = false then none
  else if e.2.state = .dormant then
    some ⟨e.2.last_seen_timestamp, .exit, e.1,
      if is_valid_exit cfg e.2.last_bbox fw (some fh) then 8/10 else 5/10,
      e.2.last_bbox, []⟩
  else if e.2.state = .active ∧ e.2.frames_missing > 0 then
    some ⟨e.2.last_seen_timestamp, .exit, e.1,
      if is_valid_exit cfg e.2.last_bbox fw (some fh) then 7/10 else 4/10,
      e.2.last_bbox, []⟩
  else none

/-- `_process_chunk` on the sampled frames: the final tracking state. -/
def process_chunk (cfg : TrackerConfig) (fw fh : ℚ)
    (frames : List (ℚ × List PoseDetection)) : ChunkState :=
  frames.foldl (frameStep cfg fw fh) ChunkState.init

/-- The event list `_process_chunk` returns: the per-frame events plus
the end-of-chunk exits. -/
def process_chunk_events (cfg : TrackerConfig) (fw fh : ℚ)
    (frames : List (ℚ × List PoseDetection)) : List PoseEvent :=
  let st := process_chunk cfg fw fh frames
  st.events ++ st.tracked_persons.filterMap (endEntry cfg fw fh)

/-- `process_video`'s consolidation: concatenate the per-chunk event
lists and sort by timestamp (`all_events.sort(key=lambda e: e.timestamp)`,
a stable sort).  No per-chunk id offset is applied. -/
def merge_chunk_events (chunk_events : List (List PoseEvent)) : List PoseEvent :=
  chunk_events.flatten.mergeSort (fun a b => decide (a.timestamp ≤ b.timestamp))

/-- The event types carried by one identity, in emission order. -/
def eventsFor (pid : ℕ) (events : List PoseEvent) : List PoseEventType :=
  (events.filter (fun e => decide (e.person_id = pid))).map (fun e => e.event_type)

/-! ## Theorems -/

/-! ### Constructor disequalities used when evaluating the tracker

`norm_num` does not discharge constructor equalities on its own, so the
combinations that occur in the chunk loop are provided as rewrite
rules. -/

theorem ps_pending_exited : (PersonState.pending = PersonState.exited) = False := by simp
theorem ps_pending_dormant : (PersonState.pending = PersonState.dormant) = False := by simp
theorem ps_pending_active : (PersonState.pending = PersonState.active) = False := by simp
theorem ps_active_exited : (PersonState.active = PersonState.exited) = False := by simp
theorem ps_active_dormant : (PersonState.active = PersonState.dormant) = False := by simp
theorem ps_active_pending : (PersonState.active = PersonState.pending) = False := by simp
theorem ps_dormant_exited : (PersonState.dormant = PersonState.exited) = False := by simp
theorem ps_dormant_pending : (PersonState.dormant = PersonState.pending) = False := by simp
theorem ps_dormant_active : (PersonState.dormant = PersonState.active) = False := by simp
theorem ps_exited_pending : (PersonState.exited = PersonState.pending) = False := by simp
theorem ps_exited_active : (PersonState.exited = PersonState.active) = False := by simp
theorem ps_exited_dormant : (PersonState.exited = PersonState.dormant) = False := by simp
theorem fe_top_left : (FrameEdge.top = FrameEdge.left) = False := by simp
theorem fe_top_right : (FrameEdge.top = FrameEdge.right) = False := by simp
theorem fe_bottom_left : (FrameEdge.bottom = FrameEdge.left) = False := by simp
theorem fe_bottom_right : (FrameEdge.bottom = FrameEdge.right) = False := by simp
theorem pet_enter_exit : (PoseEventType.enter = PoseEventType.exit) = False := by simp
theorem pet_exit_enter : (PoseEventType.exit = PoseEventType.enter) = False := by simp

/-! ### Lemmas about `SegmentFilter.filter` -/

/-- When merging is on, the kept list (here in reverse order, as the loop
accumulates it) always satisfies the gap invariant. -/
theorem filterPass_chain (cfg : FilterConfig) (hm : cfg.merge_close_segments = true)
    (segs : List (ℚ × ℚ)) :
    ∀ acc : List (ℚ × ℚ), List.Chain' (flip (gapOK cfg)) acc →
      List.Chain' (gapOK cfg) (filterPass cfg acc segs) := by
  induction segs with
  | nil =>
    intro acc hacc
    simp only [filterPass]
    exact List.chain'_reverse.mpr hacc
  | cons hd rest ih =>
    intro acc hacc
    obtain ⟨s, e⟩ := hd
    rcases acc with _ | ⟨⟨ps, pe⟩, accTail⟩
    · rw [filterPass.eq_def]
      dsimp only
      split
      · exact ih [] hacc
      · split
        · exact ih [] hacc
        · exact ih [(s, e)] (List.chain'_singleton _)
    · rw [filterPass.eq_def]
      dsimp only
      split
      · exact ih _ hacc
      · split
        · exact ih _ hacc
        · split
          · refine ih ((ps, e) :: accTail) ?_
            rcases accTail with _ | ⟨b, accTail'⟩
            · exact List.chain'_singleton _
            · exact List.chain'_cons.mpr
                ⟨(List.chain'_cons.mp hacc).1, (List.chain'_cons.mp hacc).2⟩
          · rename_i hcond
            refine ih ((s, e) :: (ps, pe) :: accTail) (List.chain'_cons.mpr ⟨?_, hacc⟩)
            rw [not_and_or] at hcond
            rcases hcond with h | h
            · exact absurd hm (by simpa using h)
            · exact le_of_not_lt (by simpa using h)

/-- If every segment of `L` has an in-range duration, consecutive gaps are
at least the merge threshold, and the last already-kept segment (head of
the reversed accumulator) is at least the threshold before `L`, the loop
keeps `L` unchanged. -/
theorem filterPass_fixed (cfg : FilterConfig) (L : List (ℚ × ℚ)) :
    ∀ acc : List (ℚ × ℚ),
      (∀ p ∈ L, cfg.min_duration ≤ p.2 - p.1 ∧ p.2 - p.1 ≤ cfg.max_duration) →
      (cfg.merge_close_segments = true → List.Chain' (gapOK cfg) L) →
      (cfg.merge_close_segments = true → ∀ a ∈ acc.head?, ∀ b ∈ L.head?, gapOK cfg a b) →
      filterPass cfg acc L = acc.reverse ++ L := by
  induction L with
  | nil =>
    intro acc _ _ _
    simp only [filterPass, List.append_nil]
  | cons hd rest ih =>
    intro acc hdur hchain hlink
    obtain ⟨s, e⟩ := hd
    have hd1 := (hdur (s, e) (List.mem_cons_self _ _)).1
    have hd2 := (hdur (s, e) (List.mem_cons_self _ _)).2
    have hrest : ∀ p ∈ rest, cfg.min_duration ≤ p.2 - p.1 ∧ p.2 - p.1 ≤ cfg.max_duration :=
      fun p hp => hdur p (List.mem_cons_of_mem _ hp)
    have hlink' : cfg.merge_close_segments = true →
        ∀ a ∈ ((s, e) :: acc).head?, ∀ b ∈ rest.head?, gapOK cfg a b := by
      intro hm a ha b hb
      simp only [List.head?_cons, Option.mem_some_iff] at ha
      subst ha
      rcases rest with _ | ⟨q, rest'⟩
      · simp at hb
      · simp only [List.head?_cons, Option.mem_some_iff] at hb
        subst hb
        exact (List.chain'_cons.mp (hchain hm)).1
    rcases acc with _ | ⟨⟨ps, pe⟩, accTail⟩
    · rw [filterPass.eq_def]
      dsimp only
      rw [if_neg (not_lt.mpr hd1), if_neg (not_lt.mpr hd2)]
      rw [ih [(s, e)] hrest (fun hm => (hchain hm).tail) hlink']
      simp
    · rw [filterPass.eq_def]
      dsimp only
      rw [if_neg (not_lt.mpr hd1), if_neg (not_lt.mpr hd2), if_neg ?_]
      · rw [ih ((s, e) :: (ps, pe) :: accTail) hrest (fun hm => (hchain hm).tail) hlink']
        simp
      · rintro ⟨hflag, hlt⟩
        have hg : gapOK cfg (ps, pe) (s, e) := by
          apply hlink (by simpa using hflag) (ps, pe) _ (s, e) <;> simp
        exact absurd hg (not_le.mpr hlt)

/-- With zero buffers, buffering is idempotent on any segment. -/
theorem applyBuffer_idem (cfg : FilterConfig) (vd : Option ℚ)
    (hb : cfg.buffer_before_start = 0) (ha : cfg.buffer_after_end = 0) (p : ℚ × ℚ) :
    applyBuffer cfg vd (applyBuffer cfg vd p) = applyBuffer cfg vd p := by
  obtain ⟨s, e⟩ := p
  cases vd with
  | none =>
    simp only [applyBuffer, hb, ha, sub_zero, add_zero]
    refine Prod.ext ?_ rfl
    simp only [max_def]
    split_ifs <;> rfl
  | some d =>
    simp only [applyBuffer, hb, ha, sub_zero, add_zero]
    refine Prod.ext ?_ ?_ <;> simp only [max_def, min_def] <;> split_ifs <;> rfl

/-- With zero buffers, buffering never shrinks a gap. -/
theorem applyBuffer_gap (cfg : FilterConfig) (vd : Option ℚ)
    (hb : cfg.buffer_before_start = 0) (ha : cfg.buffer_after_end = 0) (p q : ℚ × ℚ)
    (h : gapOK cfg p q) : gapOK cfg (applyBuffer cfg vd p) (applyBuffer cfg vd q) := by
  obtain ⟨ps, pe⟩ := p
  obtain ⟨qs, qe⟩ := q
  unfold gapOK at h ⊢
  have h1 : qs ≤ (applyBuffer cfg vd (qs, qe)).1 := by
    simp [applyBuffer, hb]
    cases vd <;> simp [le_max_right]
  have h2 : (applyBuffer cfg vd (ps, pe)).2 ≤ pe := by
    cases vd <;> simp [applyBuffer, ha, min_le_right]
  calc cfg.merge_threshold ≤ qs - pe := h
    _ ≤ (applyBuffer cfg vd (qs, qe)).1 - (applyBuffer cfg vd (ps, pe)).2 := by
        apply sub_le_sub h1 h2

/-! ### C1 -/

/-- C1: on the raw segments `[(10,50),(53,90),(200,260)]` with
`min_duration = 20`, any `max_duration ≥ 82`, `merge_threshold = 5`,
buffers `(2,2)` and `video_duration = 300`, `SegmentFilter.filter`
returns exactly `[(8,92),(198,262)]`. -/
theorem segment_filter_example (m : ℚ) (hm : 82 ≤ m) :
    SegmentFilter.filter
      { min_duration := 20, max_duration := m, merge_close_segments := true,
        merge_threshold := 5, buffer_before_start := 2, buffer_after_end := 2 }
      [(10, 50), (53, 90), (200, 260)] (some 300) = [(8, 92), (198, 262)] := by
  have h1 : ¬(m < 40) := by push_neg; linarith
  have h2 : ¬(m < 37) := by push_neg; linarith
  have h3 : ¬(m < 60) := by push_neg; linarith
  norm_num [SegmentFilter.filter, filterPass, applyBuffer, h1, h2, h3]

/-- Witness for C1 at `max_duration = 100`. -/
theorem segment_filter_example_witness :
    SegmentFilter.filter
      { min_duration := 20, max_duration := 100, merge_close_segments := true,
        merge_threshold := 5, buffer_before_start := 2, buffer_after_end := 2 }
      [(10, 50), (53, 90), (200, 260)] (some 300) = [(8, 92), (198, 262)] :=
  segment_filter_example 100 (by norm_num)

/-! ### C2 -/

/-- C2 counterexample: with nonzero buffers, a second application of the
same filter re-expands the already-buffered segment, so `filter` is not
idempotent as claimed. -/
theorem segment_filter_not_idempotent :
    SegmentFilter.filter
      { min_duration := 20, max_duration := 100, merge_close_segments := true,
        merge_threshold := 5, buffer_before_start := 2, buffer_after_end := 2 }
      (SegmentFilter.filter
        { min_duration := 20, max_duration := 100, merge_close_segments := true,
          merge_threshold := 5, buffer_before_start := 2, buffer_after_end := 2 }
        [(0, 30)] (some 300)) (some 300) ≠
      SegmentFilter.filter
        { min_duration := 20, max_duration := 100, merge_close_segments := true,
          merge_threshold := 5, buffer_before_start := 2, buffer_after_end := 2 }
        [(0, 30)] (some 300) := by
  norm_num [SegmentFilter.filter, filterPass, applyBuffer]

/-- C2 (amended): `SegmentFilter.filter` is idempotent provided both
buffers are zero and every segment of the output has a duration within
`[min_duration, max_duration]` (merging can push a merged segment past
`max_duration`, in which case a second pass drops it). -/
theorem segment_filter_idempotent (cfg : FilterConfig) (segs : List (ℚ × ℚ)) (vd : Option ℚ)
    (hb : cfg.buffer_before_start = 0) (ha : cfg.buffer_after_end = 0)
    (hdur : ∀ p ∈ SegmentFilter.filter cfg segs vd,
      cfg.min_duration ≤ p.2 - p.1 ∧ p.2 - p.1 ≤ cfg.max_duration) :
    SegmentFilter.filter cfg (SegmentFilter.filter cfg segs vd) vd =
      SegmentFilter.filter cfg segs vd := by
  set L := SegmentFilter.filter cfg segs vd with hL
  have hchainL : cfg.merge_close_segments = true → List.Chain' (gapOK cfg) L := by
    intro hm
    have hP : List.Chain' (gapOK cfg) (filterPass cfg [] segs) :=
      filterPass_chain cfg hm segs [] List.chain'_nil
    rw [hL, SegmentFilter.filter, List.chain'_map]
    exact hP.imp (fun a b h => applyBuffer_gap cfg vd hb ha a b h)
  have hfix : filterPass cfg [] L = L := by
    have := filterPass_fixed cfg L [] hdur hchainL (by intro _ a ha'; simp at ha')
    simpa using this
  have hmapfix : L.map (applyBuffer cfg vd) = L := by
    rw [hL, SegmentFilter.filter, List.map_map]
    exact List.map_congr_left fun a _ => applyBuffer_idem cfg vd hb ha a
  conv_lhs => rw [SegmentFilter.filter, hfix, hmapfix]

/-- Witness for the amended C2 at a concrete zero-buffer configuration. -/
theorem segment_filter_idempotent_witness :
    SegmentFilter.filter
      { min_duration := 20, max_duration := 100, merge_close_segments := true,
        merge_threshold := 5, buffer_before_start := 0, buffer_after_end := 0 }
      (SegmentFilter.filter
        { min_duration := 20, max_duration := 100, merge_close_segments := true,
          merge_threshold := 5, buffer_before_start := 0, buffer_after_end := 0 }
        [(0, 30), (40, 70)] (some 300)) (some 300) =
      SegmentFilter.filter
        { min_duration := 20, max_duration := 100, merge_close_segments := true,
          merge_threshold := 5, buffer_before_start := 0, buffer_after_end := 0 }
        [(0, 30), (40, 70)] (some 300) :=
  segment_filter_idempotent _ _ _ rfl rfl (by
    norm_num [SegmentFilter.filter, filterPass, applyBuffer])

/-! ### C6 -/

theorem pointPolygonTest_true (pts : List (ℚ × ℚ)) (p : ℚ × ℚ) :
    pointPolygonTest pts p true = polySignedDist pts p := rfl

theorem pointPolygonTest_false (pts : List (ℚ × ℚ)) (p : ℚ × ℚ) :
    pointPolygonTest pts p false =
      if polySignedDist pts p > 0 then 1
      else if polySignedDist pts p < 0 then -1 else 0 := rfl

theorem is_in_zone_stage (cfg : FlexibleZoneConfig) (x y : ℚ) :
    is_in_zone cfg x y "stage" = shapeContains cfg.stage_bounds x y := rfl

/-- C6: for every point and every configured shape kind, stage-zone
membership agrees with the sign of `get_distance_to_edge`: a point
classified inside has distance `≥ 0` and a point classified outside has
distance `< 0` (for an ellipse this needs the configured axes positive,
as the Python code divides by them). -/
theorem zone_classify_agrees_with_distance (cfg : FlexibleZoneConfig) (x y : ℚ)
    (hz : cfg.stage_bounds.wellFormed) :
    (is_in_zone cfg x y "stage" = true → 0 ≤ get_distance_to_edge cfg x y) ∧
      (is_in_zone cfg x y "stage" = false → get_distance_to_edge cfg x y < 0) := by
  rw [is_in_zone_stage]
  cases hb : cfg.stage_bounds with
  | unset =>
    refine ⟨fun _ => ?_, fun habs => ?_⟩
    · rw [get_distance_to_edge, hb]
      norm_num
    · rw [shapeContains] at habs
      simp at habs
  | rectangle left right top bottom =>
    constructor
    · intro h
      rw [shapeContains, decide_eq_true_iff] at h
      obtain ⟨h1, h2, h3, h4⟩ := h
      rw [get_distance_to_edge, hb]
      refine le_min (le_min (le_min ?_ ?_) ?_) ?_ <;> linarith
    · intro h
      rw [shapeContains, decide_eq_false_iff_not] at h
      rw [get_distance_to_edge, hb]
      push_neg at h
      rcases lt_or_le x left with hc | hc
      · calc min (min (min (x - left) (right - x)) (y - top)) (bottom - y)
            ≤ x - left := le_trans (min_le_left _ _) (le_trans (min_le_left _ _) (min_le_left _ _))
          _ < 0 := by linarith
      rcases lt_or_le right x with hc2 | hc2
      · calc min (min (min (x - left) (right - x)) (y - top)) (bottom - y)
            ≤ right - x := le_trans (min_le_left _ _) (le_trans (min_le_left _ _) (min_le_right _ _))
          _ < 0 := by linarith
      rcases lt_or_le y top with hc3 | hc3
      · calc min (min (min (x - left) (right - x)) (y - top)) (bottom - y)
            ≤ y - top := le_trans (min_le_left _ _) (min_le_right _ _)
          _ < 0 := by linarith
      have hc4 := h hc hc2 hc3
      calc min (min (min (x - left) (right - x)) (y - top)) (bottom - y)
          ≤ bottom - y := min_le_right _ _
        _ < 0 := by linarith
  | polygon pts =>
    constructor
    · intro h
      rw [shapeContains, decide_eq_true_iff] at h
      rw [get_distance_to_edge, hb]
      rw [pointPolygonTest_false] at h
      dsimp only
      rw [pointPolygonTest_true]
      by_contra hneg
      push_neg at hneg
      rw [if_neg (by linarith), if_pos hneg] at h
      norm_num at h
    · intro h
      rw [shapeContains, decide_eq_false_iff_not] at h
      rw [get_distance_to_edge, hb]
      rw [pointPolygonTest_false] at h
      dsimp only
      rw [pointPolygonTest_true]
      push_neg at h
      by_contra hneg
      push_neg at hneg
      rcases lt_or_eq_of_le hneg with hlt | heq
      · rw [if_pos hlt] at h
        norm_num at h
      · rw [if_neg (by rw [← heq]; exact lt_irrefl 0),
          if_neg (by rw [← heq]; exact lt_irrefl 0)] at h
        norm_num at h
  | ellipse cx cy width height =>
    rw [hb] at hz
    obtain ⟨hw, hh⟩ := hz
    have hwx : (0 : ℚ) < width / 2 := by linarith
    have hwy : (0 : ℚ) < height / 2 := by linarith
    have hmin : (0 : ℚ) < min (width / 2) (height / 2) := lt_min hwx hwy
    constructor
    · intro h
      rw [shapeContains, decide_eq_true_iff] at h
      rw [get_distance_to_edge, hb]
      dsimp only
      rw [if_pos h]
      exact mul_nonneg (by linarith) (le_of_lt hmin)
    · intro h
      rw [shapeContains, decide_eq_false_iff_not] at h
      push_neg at h
      rw [get_distance_to_edge, hb]
      dsimp only
      rw [if_neg (not_le.mpr h)]
      have hp : (0 : ℚ) < (((x - cx) / (width / 2)) ^ 2 + ((y - cy) / (height / 2)) ^ 2 - 1) *
          min (width / 2) (height / 2) := mul_pos (by linarith) hmin
      linarith

/-- Witness for C6: an elliptical zone with unit axes, evaluated at an
outside point. -/
theorem zone_classify_agrees_with_distance_witness :
    (set_elliptical_zone (1/2) (1/2) 1 1).stage_bounds.wellFormed ∧
      ((is_in_zone (set_elliptical_zone (1/2) (1/2) 1 1) 0 0 "stage" = true →
          0 ≤ get_distance_to_edge (set_elliptical_zone (1/2) (1/2) 1 1) 0 0) ∧
        (is_in_zone (set_elliptical_zone (1/2) (1/2) 1 1) 0 0 "stage" = false →
          get_distance_to_edge (set_elliptical_zone (1/2) (1/2) 1 1) 0 0 < 0)) :=
  ⟨⟨by norm_num, by norm_num⟩,
   zone_classify_agrees_with_distance _ 0 0 ⟨by norm_num, by norm_num⟩⟩

/-! ### C8 -/

/-- C8 counterexample: for the rectangle stage zone `[0, 0.4] × [0, 0.4]`
the code's safe zone uses a fixed `0.05` margin, which is not the stage
rectangle shrunk by 10% about its center (that would have left edge
`0.02`, not `0.05`). -/
theorem rectangle_safe_zone_not_10_percent :
    (set_rectangle_zone 0 (2/5) 0 (2/5)).safe_zone ≠ shrinkRect10 0 (2/5) 0 (2/5) := by
  rw [set_rectangle_zone, shrinkRect10]
  intro h
  rw [ZoneShape.rectangle.injEq] at h
  have h1 := h.1
  norm_num at h1

/-- C8 (amended): the polygon and ellipse safe/danger layers are the stage
region scaled by 0.9/1.1 about its center (shrunk/expanded by 10%), but
the rectangle safe/danger layers instead use a fixed margin of 0.05
inward/outward on each side. -/
theorem zone_layers_derivation (left right top bottom cx cy width height : ℚ)
    (pts : List (ℚ × ℚ)) :
    (set_polygon_zone pts).safe_zone = scalePolygon (9/10) pts ∧
      (set_polygon_zone pts).danger_zone = scalePolygon (11/10) pts ∧
      (set_elliptical_zone cx cy width height).safe_zone =
        scaleEllipse (9/10) cx cy width height ∧
      (set_elliptical_zone cx cy width height).danger_zone =
        scaleEllipse (11/10) cx cy width height ∧
      (set_rectangle_zone left right top bottom).safe_zone =
        .rectangle (left + 5/100) (right - 5/100) (top + 5/100) (bottom - 5/100) ∧
      (set_rectangle_zone left right top bottom).danger_zone =
        .rectangle (left - 5/100) (right + 5/100) (top - 5/100) (bottom + 5/100) :=
  ⟨rfl, rfl, rfl, rfl, rfl, rfl⟩

/-! ### C3 -/

theorem signal_weights_pos : ∀ tw ∈ signal_weights, 0 < tw.2 := by
  intro tw h
  fin_cases h <;> norm_num

theorem sum_map_snd_pos {l : List (String × ℚ)} (h : ∀ x ∈ l, 0 < x.2) (hne : l ≠ []) :
    0 < (l.map Prod.snd).sum := by
  cases l with
  | nil => exact absurd rfl hne
  | cons x xs =>
    have h0 := h x (List.mem_cons_self _ _)
    have hs : 0 ≤ (xs.map Prod.snd).sum := by
      apply List.sum_nonneg
      intro q hq
      obtain ⟨y, hy, rfl⟩ := List.mem_map.mp hq
      exact le_of_lt (h y (List.mem_cons_of_mem _ hy))
    simp only [List.map_cons, List.sum_cons]
    linarith

/-- Unrolling the weights loop: the accumulator collects the per-present-type
scores and the total present weight. -/
theorem foldl_weightStep (signals : List DetectionSignal) :
    ∀ (ws : List (String × ℚ)) (a b : ℚ),
      ws.foldl (weightStep signals) (a, b) =
        (a + ((ws.filter (fun tw => !(signalGroup signals tw.1).isEmpty)).map (fun tw =>
            mean ((takeLast 5 (signalGroup signals tw.1)).map (fun s => s.value * s.confidence)) *
              mean ((takeLast 5 (signalGroup signals tw.1)).map (fun s => s.confidence)) *
              tw.2)).sum,
          b + ((ws.filter (fun tw => !(signalGroup signals tw.1).isEmpty)).map Prod.snd).sum) := by
  intro ws
  induction ws with
  | nil =>
    intro a b
    simp
  | cons tw rest ih =>
    intro a b
    rw [List.foldl_cons]
    by_cases hg : signalGroup signals tw.1 = []
    · have hfil : (!(signalGroup signals tw.1).isEmpty) = false := by
        rw [hg]
        rfl
      have hstep : weightStep signals (a, b) tw = (a, b) := by
        rw [weightStep]
        simp [hg]
      rw [hstep, ih a b, List.filter_cons, hfil]
      simp
    · have hfil : (!(signalGroup signals tw.1).isEmpty) = true := by
        rcases h' : signalGroup signals tw.1 with _ | ⟨z, zs⟩
        · exact absurd h' hg
        · rfl
      have hstep : weightStep signals (a, b) tw =
          (a + mean ((takeLast 5 (signalGroup signals tw.1)).map
                (fun s => s.value * s.confidence)) *
              mean ((takeLast 5 (signalGroup signals tw.1)).map (fun s => s.confidence)) *
              tw.2,
            b + tw.2) := by
        rw [weightStep]
        simp [hg]
      rw [hstep, ih, List.filter_cons, hfil]
      rw [if_pos rfl, List.map_cons, List.sum_cons, List.map_cons, List.sum_cons,
        Prod.mk.injEq]
      constructor <;> ring

/-- The exit-confidence computation, rewritten as exponential smoothing of
the normalized weighted per-type scores (shared by the C3 theorems). -/
theorem calcExit_eq_formula (signals : List DetectionSignal) (old_confidence : ℚ)
    (hne : signals ≠ []) :
    calculate_exit_confidence signals old_confidence =
      7/10 * rawFused signals + 3/10 * old_confidence := by
  rw [calculate_exit_confidence, if_neg hne]
  have hfold := foldl_weightStep signals signal_weights 0 0
  dsimp only
  rw [hfold, rawFused]
  by_cases hp : presentWeights signals = []
  · rw [if_pos hp]
    rw [presentWeights] at hp
    rw [hp]
    simp
  · rw [if_neg hp]
    have hpos : 0 < ((presentWeights signals).map Prod.snd).sum := by
      apply sum_map_snd_pos
      · intro x hx
        exact signal_weights_pos x (List.mem_filter.mp hx).1
      · exact hp
    rw [presentWeights] at hpos ⊢
    rw [zero_add, zero_add, if_pos hpos]

theorem rawFused_example : rawFused [⟨"position", 1, 1/2, 0⟩] = 1/4 := by
  rw [rawFused]
  simp [presentWeights, signalGroup, signal_weights, takeLast, mean, List.filter_cons]
  norm_num

theorem rawClaimed_example : rawClaimed [⟨"position", 1, 1/2, 0⟩] = 1/2 := by
  rw [rawClaimed]
  simp [presentWeights, signalGroup, signal_weights, takeLast, mean, List.filter_cons]

/-- C3 counterexample: one position signal with value 1 and confidence
1/2.  The code multiplies the per-type score by the average confidence of
the recent samples, yielding `0.7·(0.5·0.5) = 0.175`; the claimed formula
omits that factor and yields `0.7·0.5 = 0.35`. -/
theorem exit_confidence_not_as_claimed :
    calculate_exit_confidence [⟨"position", 1, 1/2, 0⟩] 0 ≠
      7/10 * rawClaimed [⟨"position", 1, 1/2, 0⟩] + 3/10 * 0 := by
  rw [calcExit_eq_formula _ _ (by simp), rawFused_example, rawClaimed_example]
  norm_num

/-- C3 (amended): for a non-empty signal history the exit confidence is
`0.7·raw + 0.3·previous`, where `raw` sums, over the signal types present,
the mean of the recent five `value·confidence` samples times the *mean of
those samples' confidences* times the per-type weight, normalized by the
total weight of the present types. -/
theorem exit_confidence_formula (signals : List DetectionSignal) (old_confidence : ℚ)
    (hne : signals ≠ []) :
    calculate_exit_confidence signals old_confidence =
      7/10 * rawFused signals + 3/10 * old_confidence :=
  calcExit_eq_formula signals old_confidence hne

/-- Witness for the amended C3 on a single zone signal. -/
theorem exit_confidence_formula_witness :
    ([⟨"zone", 1, 1, 0⟩] : List DetectionSignal) ≠ [] ∧
      calculate_exit_confidence [⟨"zone", 1, 1, 0⟩] (1/2) =
        7/10 * rawFused [⟨"zone", 1, 1, 0⟩] + 3/10 * (1/2) :=
  ⟨by simp, exit_confidence_formula [⟨"zone", 1, 1, 0⟩] (1/2) (by simp)⟩

/-! ### C7 -/

/-- C7: after saving a detection cache entry, loading the same video with
a config whose detection-relevant fields hash identically returns the
saved data (whatever else is in the store, the fresh write wins); loading
the same video with a differently-hashing config on a store holding only
this entry returns `none`. -/
theorem cache_roundtrip (data : DetectionCacheData) (c_same c_diff : CacheConfig)
    (hsame : compute_config_hash c_same = data.config_hash)
    (hdiff : compute_config_hash c_diff ≠ data.config_hash) :
    (∀ store : CacheStore,
      load_cache (save_cache store data) data.video_hash c_same = some data) ∧
      load_cache (save_cache [] data) data.video_hash c_diff = none := by
  constructor
  · intro store
    rw [load_cache, save_cache, get_cache_key, hsame]
    rw [List.find?_cons_of_pos _ (by simp)]
    rfl
  · rw [load_cache, save_cache, get_cache_key]
    rw [List.find?_cons_of_neg _ (by simp [Prod.ext_iff]; intro h; exact absurd h.symm hdiff)]
    rfl

/-- Witness for C7: a concrete entry, an identical config, and a config
differing only in `sample_rate`. -/
theorem cache_roundtrip_witness :
    (compute_config_hash ⟨⟨some "pose", none, none, none, none, some 10, none⟩, []⟩ =
        (⟨"v.mp4", "abc", ⟨some "pose", none, none, none, none, some 10, none⟩, 0, []⟩ :
          DetectionCacheData).config_hash ∧
      compute_config_hash ⟨⟨some "pose", none, none, none, none, some 5, none⟩, []⟩ ≠
        (⟨"v.mp4", "abc", ⟨some "pose", none, none, none, none, some 10, none⟩, 0, []⟩ :
          DetectionCacheData).config_hash) ∧
      ((∀ store : CacheStore,
        load_cache
          (save_cache store ⟨"v.mp4", "abc", ⟨some "pose", none, none, none, none, some 10, none⟩, 0, []⟩)
          "abc" ⟨⟨some "pose", none, none, none, none, some 10, none⟩, []⟩ =
          some ⟨"v.mp4", "abc", ⟨some "pose", none, none, none, none, some 10, none⟩, 0, []⟩) ∧
        load_cache
          (save_cache [] ⟨"v.mp4", "abc", ⟨some "pose", none, none, none, none, some 10, none⟩, 0, []⟩)
          "abc" ⟨⟨some "pose", none, none, none, none, some 5, none⟩, []⟩ = none) :=
  ⟨⟨rfl, by simp [compute_config_hash]⟩,
    cache_roundtrip _ _ _ rfl (by simp [compute_config_hash])⟩

/-! ### C9 -/

/-- `startCondition` and `endCondition` never overlap: closing requires
leaving `comedian_performing`, opening requires arriving at it. -/
theorem start_end_disjoint (old_state new_state : PerformanceState)
    (h : endCondition old_state new_state = true) :
    startCondition old_state new_state = false := by
  revert h
  cases old_state <;> cases new_state <;> decide

/-- C9: when a segment-closing transition fires while a candidate is
open, the candidate is appended to the finalized list exactly when its
duration reaches the configured minimum, a shorter candidate leaves the
list unchanged, and the open candidate is cleared either way. -/
theorem segment_boundary_close (min_performance_duration : ℚ)
    (segments : List PerformanceSegment) (c : CandidateSegment)
    (old_state new_state : PerformanceState) (timestamp : ℚ)
    (hend : endCondition old_state new_state = true) :
    check_segment_boundary min_performance_duration segments (some c)
        old_state new_state timestamp =
      ((if timestamp - c.start_time ≥ min_performance_duration then
          segments ++ [⟨c.start_time, c.start_state, timestamp, old_state,
            timestamp - c.start_time⟩]
        else segments), none) := by
  rw [check_segment_boundary]
  rw [start_end_disjoint old_state new_state hend, hend]
  simp only [Bool.false_eq_true, if_false, if_true]
  split <;> rfl

/-- Witness for C9: a comedian-performing → host-outro transition closing
a 40-second candidate against a 30-second minimum. -/
theorem segment_boundary_close_witness :
    endCondition .comedian_performing .host_outro = true ∧
      check_segment_boundary 30 [] (some ⟨10, .comedian_performing⟩)
          .comedian_performing .host_outro 50 =
        ((if (50 : ℚ) - 10 ≥ 30 then
            ([] : List PerformanceSegment) ++ [⟨10, .comedian_performing, 50,
              .comedian_performing, (50 : ℚ) - 10⟩]
          else []), none) :=
  ⟨rfl, segment_boundary_close 30 [] ⟨10, .comedian_performing⟩ _ _ 50 rfl⟩

/-! ### C4 -/

/-- C4 counterexample: two chunks, each showing one stable performer for
two sampled frames.  Each chunk numbers its identities from zero, so both
emit an enter event with `person_id = 0`, and the merged (sorted) stream
contains two distinct events from different chunks carrying the same
`person_id`. -/
theorem chunk_person_ids_collide :
    process_chunk_events TrackerConfig.default 100 100
        [(0, [⟨⟨10, 10, 30, 90⟩, [], 1, 1600⟩]), (2, [⟨⟨10, 10, 30, 90⟩, [], 1, 1600⟩])] =
      [⟨0, .enter, 0, 1, ⟨10, 10, 30, 90⟩, []⟩] ∧
    process_chunk_events TrackerConfig.default 100 100
        [(100, [⟨⟨10, 10, 30, 90⟩, [], 1, 1600⟩]), (102, [⟨⟨10, 10, 30, 90⟩, [], 1, 1600⟩])] =
      [⟨100, .enter, 0, 1, ⟨10, 10, 30, 90⟩, []⟩] ∧
    (⟨0, .enter, 0, 1, ⟨10, 10, 30, 90⟩, []⟩ : PoseEvent) ∈
      merge_chunk_events [[⟨0, .enter, 0, 1, ⟨10, 10, 30, 90⟩, []⟩],
        [⟨100, .enter, 0, 1, ⟨10, 10, 30, 90⟩, []⟩]] ∧
    (⟨100, .enter, 0, 1, ⟨10, 10, 30, 90⟩, []⟩ : PoseEvent) ∈
      merge_chunk_events [[⟨0, .enter, 0, 1, ⟨10, 10, 30, 90⟩, []⟩],
        [⟨100, .enter, 0, 1, ⟨10, 10, 30, 90⟩, []⟩]] ∧
    (⟨0, .enter, 0, 1, ⟨10, 10, 30, 90⟩, []⟩ : PoseEvent).person_id =
      (⟨100, .enter, 0, 1, ⟨10, 10, 30, 90⟩, []⟩ : PoseEvent).person_id ∧
    (⟨0, .enter, 0, 1, ⟨10, 10, 30, 90⟩, []⟩ : PoseEvent) ≠
      ⟨100, .enter, 0, 1, ⟨10, 10, 30, 90⟩, []⟩ := by
  refine ⟨?_, ?_, ?_, ?_, rfl, ?_⟩
  · norm_num [process_chunk_events, process_chunk, frameStep, processDetection,
      match_detection_to_person, matchStep, calculate_iou, center_distance_lt, get_entry_edge,
      is_in_audience_zone, is_valid_exit, lookupPerson, updatePerson, entryPass,
      missEntry, dormantEntry, handleMissing, endEntry, largestDetection,
      TrackedPerson.init, TrackedPerson.updateDet, TrackedPerson.markMissing,
      ChunkState.init, TrackerConfig.default, valid_entry_edges, BBox.center,
      List.filter_cons, List.foldl_cons, List.foldl_nil,
      ps_pending_exited, ps_pending_dormant, ps_pending_active, ps_active_exited,
      ps_active_dormant, ps_active_pending, ps_dormant_exited, ps_dormant_pending,
      ps_dormant_active, ps_exited_pending, ps_exited_active, ps_exited_dormant,
      fe_top_left, fe_top_right, fe_bottom_left, fe_bottom_right]
  · norm_num [process_chunk_events, process_chunk, frameStep, processDetection,
      match_detection_to_person, matchStep, calculate_iou, center_distance_lt, get_entry_edge,
      is_in_audience_zone, is_valid_exit, lookupPerson, updatePerson, entryPass,
      missEntry, dormantEntry, handleMissing, endEntry, largestDetection,
      TrackedPerson.init, TrackedPerson.updateDet, TrackedPerson.markMissing,
      ChunkState.init, TrackerConfig.default, valid_entry_edges, BBox.center,
      List.filter_cons, List.foldl_cons, List.foldl_nil,
      ps_pending_exited, ps_pending_dormant, ps_pending_active, ps_active_exited,
      ps_active_dormant, ps_active_pending, ps_dormant_exited, ps_dormant_pending,
      ps_dormant_active, ps_exited_pending, ps_exited_active, ps_exited_dormant,
      fe_top_left, fe_top_right, fe_bottom_left, fe_bottom_right]
  · rw [merge_chunk_events]
    exact (List.mergeSort_perm _ _).mem_iff.mpr (by simp)
  · rw [merge_chunk_events]
    exact (List.mergeSort_perm _ _).mem_iff.mpr (by simp)
  · intro h
    rw [PoseEvent.mk.injEq] at h
    have h1 := h.1
    norm_num at h1

/-- C4 (amended): the merged event stream is the timestamp-sorted
permutation of the concatenated per-chunk event lists; every event,
including its `person_id`, is carried over unchanged, and no id-base
offset is applied, so identity numbering is unique only within a chunk
and ids from different chunks can coincide. -/
theorem merge_is_sorted_concat (chunk_events : List (List PoseEvent)) :
    List.Perm (merge_chunk_events chunk_events) chunk_events.flatten ∧
      (merge_chunk_events chunk_events).Pairwise
        (fun a b => a.timestamp ≤ b.timestamp) := by
  constructor
  · exact List.mergeSort_perm _ _
  · have h := @List.sorted_mergeSort PoseEvent
      (fun a b : PoseEvent => decide (a.timestamp ≤ b.timestamp))
      (fun a b c hab hbc => by
        rw [decide_eq_true_iff] at *
        exact le_trans hab hbc)
      (fun a b => by
        rcases le_total a.timestamp b.timestamp with h' | h' <;>
          simp [h'])
      chunk_events.flatten
    rw [merge_chunk_events]
    exact h.imp (fun h' => by simpa using h')

/-! ### C5 -/

/-- C5: an active or dormant identity that is unmatched this frame and
whose missing duration exceeds the exit-stability threshold becomes
`exited` with an exit event exactly when its last position is near a
frame edge; away from every edge it becomes `dormant` and no event is
emitted by this step. -/
theorem unmatched_exit_iff_near_edge (cfg : TrackerConfig) (fw fh ts : ℚ) (pid : ℕ)
    (p : TrackedPerson) (hstate : p.state = .active ∨ p.state = .dormant)
    (hdur : ts - p.last_seen_timestamp > cfg.exit_stability_seconds) :
    (is_valid_exit cfg p.last_bbox fw (some fh) = true →
      handleMissing cfg fw fh ts pid p =
        ({ p.markMissing with state := .exited },
          some ⟨p.last_seen_timestamp, .exit, pid, 1, p.last_bbox, []⟩)) ∧
    (is_valid_exit cfg p.last_bbox fw (some fh) = false →
      handleMissing cfg fw fh ts pid p =
        ({ p.markMissing with state := .dormant }, none)) := by
  have hpend : ¬(p.markMissing.state = .pending ∧ p.markMissing.enter_event_emitted = false) := by
    rintro ⟨hp, -⟩
    rw [TrackedPerson.markMissing] at hp
    rcases hstate with h | h <;> rw [h] at hp <;> exact absurd hp (by simp)
  have hge : ts - p.markMissing.last_seen_timestamp ≥ cfg.exit_stability_seconds := by
    rw [TrackedPerson.markMissing]
    exact le_of_lt hdur
  constructor
  · intro hnear
    have hnear2 : is_valid_exit cfg p.markMissing.last_bbox fw (some fh) = true := by
      rw [TrackedPerson.markMissing]
      exact hnear
    rw [handleMissing, if_neg hpend, if_pos hge, if_pos hnear2]
    rfl
  · intro hfar
    have hfar2 : ¬is_valid_exit cfg p.markMissing.last_bbox fw (some fh) = true := by
      rw [TrackedPerson.markMissing]
      simp [hfar]
    rw [handleMissing, if_neg hpend, if_pos hge, if_neg hfar2]

/-- Witness for C5: an active performer last seen at the left frame edge,
missing for five seconds against a two-second threshold. -/
theorem unmatched_exit_iff_near_edge_witness :
    ((⟨0, ⟨0, 40, 10, 60⟩, [], 0, .active, 0, 0, 1, none, true, 1⟩ :
        TrackedPerson).state = .active ∨
      (⟨0, ⟨0, 40, 10, 60⟩, [], 0, .active, 0, 0, 1, none, true, 1⟩ :
        TrackedPerson).state = .dormant) ∧
    ((5 : ℚ) - (⟨0, ⟨0, 40, 10, 60⟩, [], 0, .active, 0, 0, 1, none, true, 1⟩ :
        TrackedPerson).last_seen_timestamp >
      TrackerConfig.default.exit_stability_seconds) ∧
    ((is_valid_exit TrackerConfig.default
        (⟨0, ⟨0, 40, 10, 60⟩, [], 0, .active, 0, 0, 1, none, true, 1⟩ :
          TrackedPerson).last_bbox 100 (some 100) = true →
      handleMissing TrackerConfig.default 100 100 5 0
          ⟨0, ⟨0, 40, 10, 60⟩, [], 0, .active, 0, 0, 1, none, true, 1⟩ =
        ({ (⟨0, ⟨0, 40, 10, 60⟩, [], 0, .active, 0, 0, 1, none, true, 1⟩ :
            TrackedPerson).markMissing with state := .exited },
          some ⟨0, .exit, 0, 1, ⟨0, 40, 10, 60⟩, []⟩)) ∧
    (is_valid_exit TrackerConfig.default
        (⟨0, ⟨0, 40, 10, 60⟩, [], 0, .active, 0, 0, 1, none, true, 1⟩ :
          TrackedPerson).last_bbox 100 (some 100) = false →
      handleMissing TrackerConfig.default 100 100 5 0
          ⟨0, ⟨0, 40, 10, 60⟩, [], 0, .active, 0, 0, 1, none, true, 1⟩ =
        ({ (⟨0, ⟨0, 40, 10, 60⟩, [], 0, .active, 0, 0, 1, none, true, 1⟩ :
            TrackedPerson).markMissing with state := .dormant }, none))) :=
  ⟨Or.inl rfl, by norm_num [TrackerConfig.default],
    unmatched_exit_iff_near_edge TrackerConfig.default 100 100 5 0 _
      (Or.inl rfl) (by norm_num [TrackerConfig.default])⟩

/-! ### C10: event discipline within one chunk

The invariant ties the emitted events to the person table: an identity
has an enter event exactly when its `enter_event_emitted` flag is set,
and an exit event exactly when it is both flagged and `exited`. -/

/-- The events an identity is expected to have on record, given its
table entry. -/
def expectedEvents : Option TrackedPerson → List PoseEventType
  | none => []
  | some p =>
    (if p.enter_event_emitted = true then [.enter] else []) ++
      (if p.state = .exited ∧ p.enter_event_emitted = true then [.exit] else [])

/-- The chunk-loop invariant. -/
def StInv (st : ChunkState) : Prop :=
  (∀ e ∈ st.tracked_persons, e.1 < st.next_person_id) ∧
    (st.tracked_persons.map Prod.fst).Nodup ∧
    (∀ e ∈ st.tracked_persons,
      (e.2.state = .active → e.2.enter_event_emitted = true) ∧
        (e.2.state = .dormant → e.2.enter_event_emitted = true)) ∧
    (∀ pid, eventsFor pid st.events = expectedEvents (lookupPerson st.tracked_persons pid))

theorem eventsFor_nil (pid : ℕ) : eventsFor pid [] = [] := rfl

theorem eventsFor_append (pid : ℕ) (a b : List PoseEvent) :
    eventsFor pid (a ++ b) = eventsFor pid a ++ eventsFor pid b := by
  simp [eventsFor, List.filter_append]

theorem eventsFor_singleton (pid : ℕ) (ev : PoseEvent) :
    eventsFor pid [ev] = if ev.person_id = pid then [ev.event_type] else [] := by
  by_cases h : ev.person_id = pid <;> simp [eventsFor, h]

theorem eventsFor_toList (pid : ℕ) (o : Option PoseEvent)
    (h : ∀ ev, o = some ev → ev.person_id = pid) :
    eventsFor pid o.toList = o.toList.map (fun ev => ev.event_type) := by
  cases o with
  | none => rfl
  | some ev => simp [eventsFor, h ev rfl]

theorem eventsFor_toList_ne (pid : ℕ) (o : Option PoseEvent)
    (h : ∀ ev, o = some ev → ev.person_id ≠ pid) :
    eventsFor pid o.toList = [] := by
  cases o with
  | none => rfl
  | some ev => simp [eventsFor, h ev rfl]

theorem lookupPerson_nil (pid : ℕ) : lookupPerson [] pid = none := rfl

theorem lookupPerson_cons (e : ℕ × TrackedPerson) (l : List (ℕ × TrackedPerson)) (pid : ℕ) :
    lookupPerson (e :: l) pid = if e.1 = pid then some e.2 else lookupPerson l pid := by
  by_cases h : e.1 = pid
  · rw [lookupPerson, List.find?_cons_of_pos _ (by simpa using h), if_pos h]
    rfl
  · rw [lookupPerson, List.find?_cons_of_neg _ (by simpa using h), if_neg h]
    rfl

theorem lookupPerson_append (l₁ l₂ : List (ℕ × TrackedPerson)) (pid : ℕ) :
    lookupPerson (l₁ ++ l₂) pid =
      match lookupPerson l₁ pid with
      | some p => some p
      | none => lookupPerson l₂ pid := by
  induction l₁ with
  | nil => simp [lookupPerson_nil]
  | cons e l ih =>
    rw [List.cons_append, lookupPerson_cons, lookupPerson_cons]
    by_cases h : e.1 = pid
    · rw [if_pos h, if_pos h]
    · rw [if_neg h, if_neg h, ih]

theorem lookupPerson_eq_none_of_not_key (l : List (ℕ × TrackedPerson)) (pid : ℕ)
    (h : pid ∉ l.map Prod.fst) : lookupPerson l pid = none := by
  induction l with
  | nil => rfl
  | cons e l ih =>
    rw [lookupPerson_cons]
    rw [List.map_cons, List.mem_cons] at h
    push_neg at h
    rw [if_neg (fun he => h.1 he.symm)]
    exact ih h.2

theorem lookupPerson_mem (l : List (ℕ × TrackedPerson)) (pid : ℕ) (p : TrackedPerson)
    (h : lookupPerson l pid = some p) : (pid, p) ∈ l := by
  induction l with
  | nil => exact absurd h (by simp [lookupPerson_nil])
  | cons e l ih =>
    rw [lookupPerson_cons] at h
    by_cases he : e.1 = pid
    · rw [if_pos he] at h
      injection h with h2
      subst h2
      have hh : (pid, e.2) = e := by rw [← he, Prod.mk.eta]
      rw [hh]
      exact List.mem_cons_self _ _
    · rw [if_neg he] at h
      exact List.mem_cons_of_mem _ (ih h)

theorem lookupPerson_of_mem_nodup (l : List (ℕ × TrackedPerson)) (pid : ℕ)
    (p : TrackedPerson) (hmem : (pid, p) ∈ l) (hnd : (l.map Prod.fst).Nodup) :
    lookupPerson l pid = some p := by
  induction l with
  | nil => exact absurd hmem (List.not_mem_nil _)
  | cons e l ih =>
    rw [List.map_cons, List.nodup_cons] at hnd
    rw [lookupPerson_cons]
    rcases List.mem_cons.mp hmem with h | h
    · rw [← h, if_pos rfl]
    · have hne : e.1 ≠ pid := by
        intro hk
        exact hnd.1 (by rw [hk]; exact List.mem_map_of_mem Prod.fst h)
      rw [if_neg hne]
      exact ih h hnd.2

theorem updatePerson_keys (l : List (ℕ × TrackedPerson)) (pid : ℕ) (p : TrackedPerson) :
    (updatePerson l pid p).map Prod.fst = l.map Prod.fst := by
  induction l with
  | nil => rfl
  | cons e l ih =>
    rw [updatePerson] at ih ⊢
    by_cases h : e.1 = pid <;> simp [h, ih]

theorem mem_updatePerson (l : List (ℕ × TrackedPerson)) (pid : ℕ) (p : TrackedPerson)
    (e : ℕ × TrackedPerson) (h : e ∈ updatePerson l pid p) :
    e = (pid, p) ∨ e ∈ l := by
  rw [updatePerson] at h
  obtain ⟨a, ha, rfl⟩ := List.mem_map.mp h
  by_cases hk : a.1 = pid
  · left
    rw [if_pos hk, hk]
  · right
    rw [if_neg hk]
    exact ha

theorem updatePerson_cons (e : ℕ × TrackedPerson) (l : List (ℕ × TrackedPerson))
    (pid : ℕ) (p : TrackedPerson) :
    updatePerson (e :: l) pid p =
      (if e.1 = pid then (e.1, p) else e) :: updatePerson l pid p := rfl

theorem lookupPerson_updatePerson (l : List (ℕ × TrackedPerson)) (pid q : ℕ)
    (p : TrackedPerson) :
    lookupPerson (updatePerson l pid p) q =
      if q = pid then (lookupPerson l pid).map (fun _ => p) else lookupPerson l q := by
  induction l with
  | nil =>
    by_cases h : q = pid <;> simp [updatePerson, lookupPerson_nil, h]
  | cons e l ih =>
    by_cases hq : q = pid
    · subst hq
      by_cases hk : e.1 = q <;>
        simp [updatePerson_cons, lookupPerson_cons, hk, ih]
    · by_cases hk : e.1 = pid
      · have hne : e.1 ≠ q := fun h => hq (by rw [← h, hk])
        have hqs : pid ≠ q := fun h => hq h.symm
        simp [updatePerson_cons, lookupPerson_cons, hk, hne, hq, hqs, ih]
      · by_cases heq : e.1 = q <;>
          simp [updatePerson_cons, lookupPerson_cons, hk, heq, hq, ih]

theorem eventsFor_cons (pid : ℕ) (ev : PoseEvent) (evs : List PoseEvent) :
    eventsFor pid (ev :: evs) =
      (if ev.person_id = pid then [ev.event_type] else []) ++ eventsFor pid evs := by
  by_cases h : ev.person_id = pid <;> simp [eventsFor, List.filter_cons, h]

theorem entryPass_fst (t : ℕ × TrackedPerson → TrackedPerson × Option PoseEvent)
    (l : List (ℕ × TrackedPerson)) :
    (entryPass t l).1 = l.map (fun e => (e.1, (t e).1)) := by
  induction l with
  | nil => rfl
  | cons e l ih => rw [entryPass, List.map_cons, ← ih]

theorem entryPass_snd (t : ℕ × TrackedPerson → TrackedPerson × Option PoseEvent)
    (l : List (ℕ × TrackedPerson)) :
    (entryPass t l).2 = l.filterMap (fun e => (t e).2) := by
  induction l with
  | nil => rfl
  | cons e l ih =>
    rw [entryPass, List.filterMap_cons]
    cases h : (t e).2 with
    | none => simpa [h] using ih
    | some ev => simpa [h] using ih

theorem lookupPerson_entryPass (t : ℕ × TrackedPerson → TrackedPerson × Option PoseEvent)
    (l : List (ℕ × TrackedPerson)) (pid : ℕ) :
    lookupPerson (entryPass t l).1 pid = (lookupPerson l pid).map (fun p => (t (pid, p)).1) := by
  rw [entryPass_fst]
  induction l with
  | nil => rfl
  | cons e l ih =>
    rw [List.map_cons, lookupPerson_cons, lookupPerson_cons]
    by_cases h : e.1 = pid
    · rw [if_pos (by simpa using h), if_pos h]
      subst h
      rfl
    · rw [if_neg (by simpa using h), if_neg h, ih]

theorem eventsFor_filterMap_not_key (f : ℕ × TrackedPerson → Option PoseEvent)
    (l : List (ℕ × TrackedPerson)) (pid : ℕ)
    (hid : ∀ e ∈ l, ∀ ev, f e = some ev → ev.person_id = e.1)
    (hpid : pid ∉ l.map Prod.fst) :
    eventsFor pid (l.filterMap f) = [] := by
  induction l with
  | nil => rfl
  | cons e l ih =>
    rw [List.map_cons, List.mem_cons] at hpid
    push_neg at hpid
    have hrest := ih (fun e' he' => hid e' (List.mem_cons_of_mem _ he')) hpid.2
    rw [List.filterMap_cons]
    cases h : f e with
    | none => exact hrest
    | some ev =>
      rw [eventsFor_cons, hrest]
      rw [if_neg (by rw [hid e (List.mem_cons_self _ _) ev h]; exact fun hh => hpid.1 hh.symm)]
      rfl

theorem eventsFor_filterMap (f : ℕ × TrackedPerson → Option PoseEvent)
    (l : List (ℕ × TrackedPerson)) (pid : ℕ)
    (hid : ∀ e ∈ l, ∀ ev, f e = some ev → ev.person_id = e.1)
    (hnd : (l.map Prod.fst).Nodup) :
    eventsFor pid (l.filterMap f) =
      match lookupPerson l pid with
      | none => []
      | some p => (f (pid, p)).toList.map (fun ev => ev.event_type) := by
  induction l with
  | nil => rfl
  | cons e l ih =>
    rw [List.map_cons, List.nodup_cons] at hnd
    have hidrest : ∀ e' ∈ l, ∀ ev, f e' = some ev → ev.person_id = e'.1 :=
      fun e' he' => hid e' (List.mem_cons_of_mem _ he')
    have hee : ((e.1 : ℕ), e.2) = e := Prod.mk.eta
    by_cases hk : e.1 = pid
    · subst hk
      have hrest : eventsFor e.1 (l.filterMap f) = [] :=
        eventsFor_filterMap_not_key f l e.1 hidrest hnd.1
      rw [lookupPerson_cons, if_pos rfl]
      cases h : f e with
      | none =>
        rw [List.filterMap_cons, h]
        dsimp only
        rw [hrest, hee, h]
        rfl
      | some ev =>
        rw [List.filterMap_cons, h]
        dsimp only
        rw [eventsFor_cons, hrest]
        have hcond : ev.person_id = e.1 := hid e (List.mem_cons_self _ _) ev h
        rw [if_pos hcond, hee, h]
        rfl
    · rw [lookupPerson_cons, if_neg hk]
      have hmain := ih hidrest hnd.2
      cases h : f e with
      | none =>
        rw [List.filterMap_cons, h]
        dsimp only
        exact hmain
      | some ev =>
        rw [List.filterMap_cons, h]
        dsimp only
        rw [eventsFor_cons, hmain]
        have hcond : ¬ev.person_id = pid := by
          rw [hid e (List.mem_cons_self _ _) ev h]
          exact hk
        rw [if_neg hcond]
        rfl

theorem matchStep_some (b : BBox) (fw : ℚ) (init : Option ℕ × ℚ) (e : ℕ × TrackedPerson)
    (mid : ℕ) (h : (matchStep b fw init e).1 = some mid) :
    init.1 = some mid ∨ (mid = e.1 ∧ e.2.state ≠ .exited) := by
  rw [matchStep] at h
  by_cases hex : e.2.state = .exited
  · rw [if_pos hex] at h
    exact Or.inl h
  · rw [if_neg hex] at h
    dsimp only at h
    repeat' split at h
    all_goals
      first
      | exact Or.inl h
      | (refine Or.inr ⟨?_, hex⟩
         have h2 : some e.1 = some mid := h
         injection h2 with h3
         exact h3.symm)

theorem match_fold (b : BBox) (fw : ℚ) :
    ∀ (l : List (ℕ × TrackedPerson)) (init : Option ℕ × ℚ) (mid : ℕ),
      (l.foldl (matchStep b fw) init).1 = some mid →
      init.1 = some mid ∨ ∃ p, (mid, p) ∈ l ∧ p.state ≠ .exited := by
  intro l
  induction l with
  | nil =>
    intro init mid h
    exact Or.inl h
  | cons e tl ih =>
    intro init mid h
    rw [List.foldl_cons] at h
    rcases ih _ mid h with h' | ⟨p, hp, hs⟩
    · rcases matchStep_some b fw init e mid h' with h'' | ⟨rfl, hs⟩
      · exact Or.inl h''
      · refine Or.inr ⟨e.2, ?_, hs⟩
        rw [Prod.mk.eta]
        exact List.mem_cons_self _ _
    · exact Or.inr ⟨p, List.mem_cons_of_mem _ hp, hs⟩

/-- A successful match names a non-exited person present in the table. -/
theorem match_mem (b : BBox) (fw : ℚ) (l : List (ℕ × TrackedPerson)) (mid : ℕ)
    (h : match_detection_to_person b l fw = some mid) :
    ∃ p, (mid, p) ∈ l ∧ p.state ≠ .exited := by
  rw [match_detection_to_person] at h
  rcases match_fold b fw l (none, 0) mid h with h' | h'
  · exact absurd h' (by simp)
  · exact h'

/-- The per-entry obligations that keep `StInv` stable under a
person-table pass. -/
def LocalOK (pid : ℕ) (p p' : TrackedPerson) (ev : Option PoseEvent) : Prop :=
  (∀ e, ev = some e → e.person_id = pid) ∧
    (p'.state = .active → p'.enter_event_emitted = true) ∧
    (p'.state = .dormant → p'.enter_event_emitted = true) ∧
    expectedEvents (some p) ++ ev.toList.map (fun e => e.event_type) =
      expectedEvents (some p')

theorem entryPass_inv (t : ℕ × TrackedPerson → TrackedPerson × Option PoseEvent)
    (st : ChunkState) (hinv : StInv st)
    (hlocal : ∀ e ∈ st.tracked_persons, LocalOK e.1 e.2 (t e).1 (t e).2) :
    StInv ⟨(entryPass t st.tracked_persons).1, st.next_person_id,
      st.events ++ (entryPass t st.tracked_persons).2⟩ := by
  obtain ⟨hbound, hnd, hflags, hevents⟩ := hinv
  refine ⟨?_, ?_, ?_, ?_⟩
  · intro e he
    rw [entryPass_fst] at he
    obtain ⟨a, ha, rfl⟩ := List.mem_map.mp he
    exact hbound a ha
  · show ((entryPass t st.tracked_persons).1.map Prod.fst).Nodup
    rw [entryPass_fst, List.map_map]
    exact hnd
  · intro e he
    rw [entryPass_fst] at he
    obtain ⟨a, ha, rfl⟩ := List.mem_map.mp he
    exact ⟨(hlocal a ha).2.1, (hlocal a ha).2.2.1⟩
  · intro pid
    show eventsFor pid (st.events ++ (entryPass t st.tracked_persons).2) = _
    rw [eventsFor_append, hevents pid, entryPass_snd, lookupPerson_entryPass]
    have hid : ∀ e ∈ st.tracked_persons, ∀ ev, (t e).2 = some ev → ev.person_id = e.1 :=
      fun e he ev h => (hlocal e he).1 ev h
    rw [eventsFor_filterMap _ _ pid hid hnd]
    cases hl : lookupPerson st.tracked_persons pid with
    | none => simp
    | some p =>
      have hmem := lookupPerson_mem _ _ _ hl
      have hloc := (hlocal (pid, p) hmem).2.2.2
      dsimp only
      exact hloc

theorem missEntry_local (cfg : TrackerConfig) (fw fh ts : ℚ) (cur : List ℕ)
    (e : ℕ × TrackedPerson)
    (hflags : (e.2.state = .active → e.2.enter_event_emitted = true) ∧
      (e.2.state = .dormant → e.2.enter_event_emitted = true)) :
    LocalOK e.1 e.2 (missEntry cfg fw fh ts cur e).1 (missEntry cfg fw fh ts cur e).2 := by
  rw [missEntry]
  by_cases hskip : e.1 ∈ cur ∨ e.2.state = .exited
  · rw [if_pos hskip]
    exact ⟨by simp, hflags.1, hflags.2, by simp⟩
  · rw [if_neg hskip]
    push_neg at hskip
    rw [handleMissing]
    have hstate : e.2.markMissing.state = e.2.state := rfl
    have hemit : e.2.markMissing.enter_event_emitted = e.2.enter_event_emitted := rfl
    have hnotex : ¬e.2.state = .exited := hskip.2
    by_cases hpend : e.2.markMissing.state = .pending ∧
        e.2.markMissing.enter_event_emitted = false
    · have hem : e.2.enter_event_emitted = false := hemit ▸ hpend.2
      rw [if_pos hpend]
      by_cases hdur : ts - e.2.markMissing.last_seen_timestamp > cfg.enter_stability_seconds
      · rw [if_pos hdur]
        refine ⟨by simp, by simp [TrackedPerson.markMissing, hem], by simp, ?_⟩
        simp [expectedEvents, TrackedPerson.markMissing, hem]
      · rw [if_neg hdur]
        refine ⟨by simp, ?_, ?_, ?_⟩
        · intro hcon
          dsimp only at hcon
          rw [hpend.1] at hcon
          exact absurd hcon (by simp)
        · intro hcon
          dsimp only at hcon
          rw [hpend.1] at hcon
          exact absurd hcon (by simp)
        · simp [expectedEvents, TrackedPerson.markMissing, hem]
    · rw [if_neg hpend]
      have hem : e.2.enter_event_emitted = true := by
        rw [hstate, hemit] at hpend
        rcases Bool.eq_false_or_eq_true e.2.enter_event_emitted with hb | hb
        · exact hb
        · rcases hst : e.2.state with _ | _ | _ | _
          · exact absurd ⟨hst, hb⟩ hpend
          · exact hflags.1 hst
          · exact hflags.2 hst
          · exact absurd hst hnotex
      by_cases hdur : ts - e.2.markMissing.last_seen_timestamp ≥ cfg.exit_stability_seconds
      · rw [if_pos hdur]
        by_cases hnear : is_valid_exit cfg e.2.markMissing.last_bbox fw (some fh) = true
        · rw [if_pos hnear]
          refine ⟨?_, by simp, by simp, ?_⟩
          · intro ev hev
            injection hev with h2
            rw [← h2]
          · simp [expectedEvents, TrackedPerson.markMissing, hem, hnotex]
        · rw [if_neg hnear]
          refine ⟨by simp, by simp, by simp [TrackedPerson.markMissing, hem], ?_⟩
          simp [expectedEvents, TrackedPerson.markMissing, hem, hnotex]
      · rw [if_neg hdur]
        refine ⟨by simp, ?_, ?_, ?_⟩
        · intro hcon
          rw [hstate] at hcon
          rw [hemit]
          exact hflags.1 hcon
        · intro hcon
          rw [hstate] at hcon
          rw [hemit]
          exact hflags.2 hcon
        · simp [expectedEvents, TrackedPerson.markMissing]

theorem dormantEntry_local (cfg : TrackerConfig) (ts : ℚ) (e : ℕ × TrackedPerson)
    (hflags : (e.2.state = .active → e.2.enter_event_emitted = true) ∧
      (e.2.state = .dormant → e.2.enter_event_emitted = true)) :
    LocalOK e.1 e.2 (dormantEntry cfg ts e).1 (dormantEntry cfg ts e).2 := by
  rw [dormantEntry]
  by_cases hcond : e.2.state = .dormant ∧
      ts - e.2.last_seen_timestamp > cfg.dormant_timeout_seconds
  · have hem : e.2.enter_event_emitted = true := hflags.2 hcond.1
    rw [if_pos hcond]
    refine ⟨?_, by simp, by simp, ?_⟩
    · intro ev hev
      rw [if_pos hem] at hev
      injection hev with h2
      rw [← h2]
    · rw [if_pos hem]
      simp [expectedEvents, hem, hcond.1]
  · rw [if_neg hcond]
    exact ⟨by simp, hflags.1, hflags.2, by simp⟩

/-- Appending a fresh pending person (the create path of the detection
loop) preserves the invariant. -/
theorem create_inv (st : ChunkState) (pnew : TrackedPerson) (hinv : StInv st)
    (hpend : pnew.state = .pending) (hemit : pnew.enter_event_emitted = false) :
    StInv ⟨st.tracked_persons ++ [(st.next_person_id, pnew)], st.next_person_id + 1,
      st.events⟩ := by
  obtain ⟨hbound, hnd, hflags, hevents⟩ := hinv
  have hfresh : st.next_person_id ∉ st.tracked_persons.map Prod.fst := by
    intro hmem
    obtain ⟨a, ha, hfst⟩ := List.mem_map.mp hmem
    exact absurd (hfst ▸ hbound a ha) (lt_irrefl _)
  refine ⟨?_, ?_, ?_, ?_⟩
  · intro e he
    rcases List.mem_append.mp he with h | h
    · exact lt_trans (hbound e h) (Nat.lt_succ_self _)
    · rw [List.mem_singleton.mp h]
      exact Nat.lt_succ_self _
  · show ((st.tracked_persons ++ [(st.next_person_id, pnew)]).map Prod.fst).Nodup
    rw [List.map_append, List.nodup_append]
    refine ⟨hnd, List.nodup_singleton _, ?_⟩
    intro a ha hb
    rw [List.map_singleton, List.mem_singleton] at hb
    subst hb
    exact hfresh ha
  · intro e he
    rcases List.mem_append.mp he with h | h
    · exact hflags e h
    · rw [List.mem_singleton.mp h]
      constructor
      · intro hcon
        rw [hpend] at hcon
        exact absurd hcon (by simp)
      · intro hcon
        rw [hpend] at hcon
        exact absurd hcon (by simp)
  · intro q
    show eventsFor q st.events = _
    rw [lookupPerson_append]
    cases hl : lookupPerson st.tracked_persons q with
    | some p =>
      rw [hevents q, hl]
    | none =>
      rw [hevents q, hl, lookupPerson_cons, lookupPerson_nil]
      by_cases hq : st.next_person_id = q
      · rw [if_pos (by simpa using hq)]
        simp [expectedEvents, hemit]
      · rw [if_neg (by simpa using hq)]

theorem processDetection_inv (cfg : TrackerConfig) (fw fh ts : ℚ)
    (st : ChunkState) (cur : List ℕ) (d : PoseDetection) (hinv : StInv st) :
    StInv (processDetection cfg fw fh ts (st, cur) d).1 := by
  obtain ⟨hbound, hnd, hflags, hevents⟩ := hinv
  rw [processDetection]
  dsimp only
  cases hm : match_detection_to_person d.bbox st.tracked_persons fw with
  | some mid =>
    dsimp only
    obtain ⟨person, hmem, hnex⟩ := match_mem _ _ _ _ hm
    have hlook : lookupPerson st.tracked_persons mid = some person :=
      lookupPerson_of_mem_nodup _ _ _ hmem hnd
    rw [hlook]
    dsimp only
    set p2 := if person.state = PersonState.dormant then
        { person.updateDet d.bbox d.keypoints ts d.confidence with
          state := PersonState.pending, first_seen_timestamp := ts }
      else person.updateDet d.bbox d.keypoints ts d.confidence with hp2def
    have hp2emit : p2.enter_event_emitted = person.enter_event_emitted := by
      rw [hp2def]
      by_cases hwd : person.state = .dormant
      · rw [if_pos hwd]
        rfl
      · rw [if_neg hwd]
        rfl
    have hp2ne : p2.state ≠ .exited := by
      rw [hp2def]
      by_cases hwd : person.state = .dormant
      · rw [if_pos hwd]
        intro h
        exact absurd (show PersonState.pending = .exited from h) (by simp)
      · rw [if_neg hwd]
        intro h
        exact hnex (show person.state = .exited from h)
    have hp2act : p2.state = .active → person.state = .active := by
      rw [hp2def]
      by_cases hwd : person.state = .dormant
      · rw [if_pos hwd]
        intro h
        exact absurd (show PersonState.pending = .active from h) (by simp)
      · rw [if_neg hwd]
        intro h
        exact (show person.state = .active from h)
    have hp2nd : p2.state ≠ .dormant := by
      rw [hp2def]
      by_cases hwd : person.state = .dormant
      · rw [if_pos hwd]
        intro h
        exact absurd (show PersonState.pending = .dormant from h) (by simp)
      · rw [if_neg hwd]
        intro h
        exact hwd (show person.state = .dormant from h)
    have hmidlt : mid < st.next_person_id := hbound (mid, person) hmem
    by_cases henter : p2.state = PersonState.pending ∧ p2.enter_event_emitted = false ∧
        ts - p2.first_seen_timestamp ≥ cfg.enter_stability_seconds
    · rw [if_pos henter]
      dsimp only
      have hemf : person.enter_event_emitted = false := by
        rw [← hp2emit]
        exact henter.2.1
      refine ⟨?_, ?_, ?_, ?_⟩
      · intro e he
        rcases mem_updatePerson _ _ _ _ he with h | h
        · rw [h]
          exact hmidlt
        · exact hbound e h
      · show ((updatePerson st.tracked_persons mid _).map Prod.fst).Nodup
        rw [updatePerson_keys]
        exact hnd
      · intro e he
        rcases mem_updatePerson _ _ _ _ he with h | h
        · rw [h]
          constructor
          · intro _
            rfl
          · intro hcon
            exact absurd (show PersonState.active = .dormant from hcon) (by simp)
        · exact hflags e h
      · intro q
        show eventsFor q (st.events ++ _) = _
        rw [eventsFor_append, hevents q, eventsFor_singleton, lookupPerson_updatePerson]
        by_cases hq : q = mid
        · rw [if_pos hq, hq, hlook]
          simp [expectedEvents, hemf, hnex]
        · rw [if_neg hq, if_neg (fun h => hq ((show mid = q from h).symm)), List.append_nil]
    · rw [if_neg henter]
      dsimp only
      refine ⟨?_, ?_, ?_, ?_⟩
      · intro e he
        rcases mem_updatePerson _ _ _ _ he with h | h
        · rw [h]
          exact hmidlt
        · exact hbound e h
      · show ((updatePerson st.tracked_persons mid _).map Prod.fst).Nodup
        rw [updatePerson_keys]
        exact hnd
      · intro e he
        rcases mem_updatePerson _ _ _ _ he with h | h
        · rw [h]
          constructor
          · intro hcon
            rw [hp2emit]
            exact (hflags (mid, person) hmem).1 (hp2act hcon)
          · intro hcon
            exact absurd hcon hp2nd
        · exact hflags e h
      · intro q
        show eventsFor q st.events = _
        rw [hevents q, lookupPerson_updatePerson]
        by_cases hq : q = mid
        · rw [if_pos hq, hq, hlook]
          simp [expectedEvents, hp2emit, hnex, hp2ne]
        · rw [if_neg hq]
  | none =>
    dsimp only
    cases hedge : get_entry_edge cfg d.bbox fw fh with
    | some ed =>
      dsimp only
      by_cases hval : ed ∈ valid_entry_edges
      · rw [if_pos hval]
        exact create_inv st _ ⟨hbound, hnd, hflags, hevents⟩ rfl rfl
      · rw [if_neg hval]
        exact ⟨hbound, hnd, hflags, hevents⟩
    | none =>
      dsimp only
      exact create_inv st _ ⟨hbound, hnd, hflags, hevents⟩ rfl rfl

theorem detections_fold_inv (cfg : TrackerConfig) (fw fh ts : ℚ) :
    ∀ (dets : List PoseDetection) (acc : ChunkState × List ℕ), StInv acc.1 →
      StInv ((dets.foldl (processDetection cfg fw fh ts) acc).1) := by
  intro dets
  induction dets with
  | nil =>
    intro acc h
    exact h
  | cons d tl ih =>
    intro acc h
    rw [List.foldl_cons]
    exact ih _ (processDetection_inv cfg fw fh ts acc.1 acc.2 d h)

/-- The two unmatched-person passes at the end of a frame preserve the
invariant. -/
theorem passes_inv (cfg : TrackerConfig) (fw fh ts : ℚ) (cur : List ℕ)
    (st1 : ChunkState) (h1 : StInv st1) :
    StInv ⟨(entryPass (dormantEntry cfg ts)
        (entryPass (missEntry cfg fw fh ts cur) st1.tracked_persons).1).1,
      st1.next_person_id,
      st1.events ++ (entryPass (missEntry cfg fw fh ts cur) st1.tracked_persons).2 ++
        (entryPass (dormantEntry cfg ts)
          (entryPass (missEntry cfg fw fh ts cur) st1.tracked_persons).1).2⟩ := by
  have h2 := entryPass_inv (missEntry cfg fw fh ts cur) st1 h1
    (fun e he => missEntry_local cfg fw fh ts cur e (h1.2.2.1 e he))
  have h3 := entryPass_inv (dormantEntry cfg ts)
    ⟨(entryPass (missEntry cfg fw fh ts cur) st1.tracked_persons).1,
     st1.next_person_id,
     st1.events ++ (entryPass (missEntry cfg fw fh ts cur) st1.tracked_persons).2⟩ h2
    (fun e he => dormantEntry_local cfg ts e (h2.2.2.1 e he))
  exact h3

theorem frameStep_inv (cfg : TrackerConfig) (fw fh : ℚ) (st : ChunkState)
    (frame : ℚ × List PoseDetection) (hinv : StInv st) :
    StInv (frameStep cfg fw fh st frame) := by
  rw [frameStep]
  exact passes_inv cfg fw fh frame.1 _ _
    (detections_fold_inv cfg fw fh frame.1 _ (st, []) hinv)

theorem init_inv : StInv ChunkState.init :=
  ⟨fun _ he => absurd he (List.not_mem_nil _), List.nodup_nil,
   fun _ he => absurd he (List.not_mem_nil _), fun _ => rfl⟩

theorem process_chunk_inv (cfg : TrackerConfig) (fw fh : ℚ)
    (frames : List (ℚ × List PoseDetection)) :
    StInv (process_chunk cfg fw fh frames) := by
  rw [process_chunk]
  have h : ∀ (fs : List (ℚ × List PoseDetection)) (st : ChunkState), StInv st →
      StInv (fs.foldl (frameStep cfg fw fh) st) := by
    intro fs
    induction fs with
    | nil =>
      intro st h
      exact h
    | cons fr tl ih =>
      intro st h
      rw [List.foldl_cons]
      exact ih _ (frameStep_inv cfg fw fh st fr h)
  exact h frames ChunkState.init init_inv

/-- C10: within one chunk, every identity's event history is one of
`[]`, `[enter]` or `[enter, exit]`: at most one enter and at most one
exit are emitted per identity, an exit is always preceded by that
identity's enter, and identities whose enter was never emitted
(pending drops and silent dormants) produce no events at all. -/
theorem chunk_event_discipline (cfg : TrackerConfig) (fw fh : ℚ)
    (frames : List (ℚ × List PoseDetection)) (pid : ℕ) :
    eventsFor pid (process_chunk_events cfg fw fh frames) = [] ∨
      eventsFor pid (process_chunk_events cfg fw fh frames) = [.enter] ∨
      eventsFor pid (process_chunk_events cfg fw fh frames) = [.enter, .exit] := by
  obtain ⟨hbound, hnd, hflags, hevents⟩ := process_chunk_inv cfg fw fh frames
  have hid : ∀ e ∈ (process_chunk cfg fw fh frames).tracked_persons,
      ∀ ev, endEntry cfg fw fh e = some ev → ev.person_id = e.1 := by
    intro e he ev h
    rw [endEntry] at h
    split at h
    · exact absurd h (by simp)
    · split at h
      · injection h with h2
        rw [← h2]
      · split at h
        · injection h with h2
          rw [← h2]
        · exact absurd h (by simp)
  have hkey : eventsFor pid (process_chunk_events cfg fw fh frames) =
      expectedEvents (lookupPerson (process_chunk cfg fw fh frames).tracked_persons pid) ++
        eventsFor pid ((process_chunk cfg fw fh frames).tracked_persons.filterMap
          (endEntry cfg fw fh)) := by
    rw [process_chunk_events]
    rw [eventsFor_append, hevents pid]
  rw [hkey, eventsFor_filterMap _ _ pid hid hnd]
  cases hl : lookupPerson (process_chunk cfg fw fh frames).tracked_persons pid with
  | none =>
    left
    rfl
  | some p =>
    have hmem := lookupPerson_mem _ _ _ hl
    have hfl := hflags (pid, p) hmem
    dsimp only
    by_cases hem : p.enter_event_emitted = true
    · by_cases hex : p.state = .exited
      · right
        right
        rw [endEntry]
        rw [if_neg (by simp [hem]), if_neg (by rw [hex]; simp),
          if_neg (by rw [hex]; simp)]
        simp [expectedEvents, hem, hex]
      · right
        by_cases hdor : p.state = .dormant
        · right
          rw [endEntry, if_neg (by simp [hem]), if_pos hdor]
          simp [expectedEvents, hem, hex]
        · by_cases hact : p.state = .active ∧ p.frames_missing > 0
          · right
            rw [endEntry, if_neg (by simp [hem]), if_neg hdor, if_pos hact]
            simp [expectedEvents, hem, hex]
          · left
            rw [endEntry, if_neg (by simp [hem]), if_neg hdor, if_neg hact]
            simp [expectedEvents, hem, hex]
    · have hemf : p.enter_event_emitted = false := by
        revert hem
        cases p.enter_event_emitted <;> simp
      left
      rw [endEntry, if_pos hemf]
      simp [expectedEvents, hemf]

end ComedyClipper
